import Mathlib

/-!
# Webhook signature verification (package eventdripper)

A shallow embedding of `signing.go` and `notification.go`: the signature
computation, the `EventDripper-Signature` header codec and the notification
verifier, followed by theorems about them.

Go strings and byte slices are sequences of bytes; both are modelled as
`List Byte`.  The standard-library routines the package calls on header text
(`strings.Split`, `strconv.ParseInt`, `hex.DecodeString`,
`hex.EncodeToString`, `fmt.Sprintf "%d"`, `hmac.Equal`, `time.Unix`,
`Time.Unix`, `time.Since`) are embedded by their behaviour; HMAC-SHA256 and
`json.Unmarshal` are taken as parameters (`StdLib`).
-/

namespace EventDripper

set_option maxRecDepth 100000

/-! ## Bytes and strings -/

/-- One byte of a Go string or byte slice. -/
abbrev Byte := Fin 256

/-- The bytes of a string literal (its UTF-8 encoding, as in Go source). -/
def bytes (s : String) : List Byte :=
  s.toList.flatMap fun c => (String.utf8EncodeChar c).map fun b => b.val

/-- Byte `,`. -/
def comma : Byte := 44
/-- Byte `=`. -/
def equalsSign : Byte := 61
/-- Byte `-`. -/
def minusSign : Byte := 45
/-- Byte `+`. -/
def plusSign : Byte := 43
/-- Byte `.`. -/
def dot : Byte := 46

/-- The call `strings.Split(s, sep)` for a one-byte separator (the package
only splits on `","` and `"="`): the substrings between the separators, so a
string with `n` separators yields `n + 1` pieces, some possibly empty. -/
def Split (sep : Byte) : List Byte → List (List Byte)
  | [] => [[]]
  | c :: cs =>
    if c = sep then [] :: Split sep cs
    else
      match Split sep cs with
      | [] => [[c]]
      | p :: ps => (c :: p) :: ps

/-! ## Integers: `strconv.ParseInt(_, 10, 64)` and `fmt.Sprintf("%d", _)` -/

/-- Smallest `int64`. -/
def minInt64 : Int := -9223372036854775808
/-- Largest `int64`. -/
def maxInt64 : Int := 9223372036854775807
/-- Largest `uint64`. -/
def maxUint64 : Nat := 18446744073709551615

/-- Two's-complement wrap-around of `int64` arithmetic. -/
def wrapInt64 (x : Int) : Int := (x + 9223372036854775808) % 18446744073709551616 - 9223372036854775808

/-- The value of a decimal digit byte, if it is one. -/
def digitVal (c : Byte) : Option Nat :=
  if 48 ≤ c.val ∧ c.val ≤ 57 then some (c.val - 48) else none

/-- The digit loop of `strconv.ParseUint(_, 10, 64)`: accumulates the value
left to right, failing on any byte that is not `0`..`9`.  (Go also stops with a
range error as soon as the accumulator leaves `uint64`; the accumulator only
grows, so that is the range check `ParseUint` below makes at the end.) -/
def parseDigits : Nat → List Byte → Option Nat
  | acc, [] => some acc
  | acc, c :: cs =>
    match digitVal c with
    | none => none
    | some d => parseDigits (acc * 10 + d) cs

/-- The call `strconv.ParseUint(s, 10, 64)`; `none` stands for a non-nil
error (syntax or range). -/
def ParseUint (s : List Byte) : Option Nat :=
  match s with
  | [] => none
  | _ =>
    match parseDigits 0 s with
    | none => none
    | some n => if n ≤ maxUint64 then some n else none

/-- The call `strconv.ParseInt(s, 10, 64)`; `none` stands for a non-nil error.
An optional leading `+` or `-` is followed by the unsigned digits, and the
result must fit in `int64`. -/
def ParseInt (s : List Byte) : Option Int :=
  match s with
  | [] => none
  | c :: cs =>
    let neg := decide (c = minusSign)
    let rest := if c = plusSign then cs else if c = minusSign then cs else c :: cs
    match ParseUint rest with
    | none => none
    | some un =>
      if ¬ neg ∧ 9223372036854775808 ≤ un then none
      else if neg ∧ 9223372036854775808 < un then none
      else if neg then some (-(un : Int)) else some (un : Int)

/-- The ASCII digit for a value below ten. -/
def digitByte (d : Nat) : Byte := Fin.ofNat (48 + d % 10)

/-- Decimal digits of `n`, most significant first, put before `acc`. -/
def formatUintAux : Nat → Nat → List Byte → List Byte
  | 0, _, acc => acc
  | fuel + 1, n, acc =>
    if n < 10 then digitByte n :: acc
    else formatUintAux fuel (n / 10) (digitByte (n % 10) :: acc)

/-- Decimal representation of a natural number, without leading zeros. -/
def formatUint (n : Nat) : List Byte := formatUintAux (n + 1) n []

/-- The call `fmt.Sprintf("%d", i)` for an `int64`. -/
def formatInt (i : Int) : List Byte :=
  if i < 0 then minusSign :: formatUint i.natAbs else formatUint i.natAbs

/-! ## Hexadecimal: `encoding/hex` -/

/-- The entry `hextable[n]` of `"0123456789abcdef"`. -/
def hexDigit (n : Nat) : Byte :=
  if n % 16 < 10 then Fin.ofNat (48 + n % 16) else Fin.ofNat (87 + n % 16)

/-- The call `hex.EncodeToString`: two lowercase digits per byte. -/
def hexEncode : List Byte → List Byte
  | [] => []
  | b :: bs => hexDigit (b.val / 16) :: hexDigit (b.val % 16) :: hexEncode bs

/-- The value of a hexadecimal digit byte (`0`..`9`, `a`..`f`, `A`..`F`). -/
def fromHexChar (c : Byte) : Option Nat :=
  if 48 ≤ c.val ∧ c.val ≤ 57 then some (c.val - 48)
  else if 97 ≤ c.val ∧ c.val ≤ 102 then some (c.val - 87)
  else if 65 ≤ c.val ∧ c.val ≤ 70 then some (c.val - 55)
  else none

/-- The call `hex.DecodeString`; `none` stands for a non-nil error (a byte
that is not a hexadecimal digit, or an odd length). -/
def hexDecode : List Byte → Option (List Byte)
  | [] => some []
  | [_] => none
  | p :: q :: rest =>
    match fromHexChar p, fromHexChar q with
    | some a, some b =>
      match hexDecode rest with
      | some out => some (Fin.ofNat (a * 16 + b) :: out)
      | none => none
    | _, _ => none

/-! ## Time: the part of package `time` the verifier uses -/

/-- A `time.Time` instant as Go stores it: `int64` seconds since January 1 of
year 1 and the nanoseconds within that second (`0`..`999999999`).  The zero
value is `January 1, year 1, 00:00:00 UTC`. -/
structure Time where
  sec : Int
  nsec : Nat
deriving DecidableEq, Repr

/-- Seconds from January 1, year 1 to January 1, 1970. -/
def unixToInternal : Int := 62135596800

/-- The call `time.Unix(sec, 0)`. -/
def timeUnix (sec : Int) : Time := ⟨wrapInt64 (sec + unixToInternal), 0⟩

/-- The method `t.Unix()`: whole seconds since January 1, 1970. -/
def Time.Unix (t : Time) : Int := wrapInt64 (t.sec - unixToInternal)

/-- Exact number of nanoseconds from `u` to `t`. -/
def nanosBetween (t u : Time) : Int :=
  (t.sec - u.sec) * 1000000000 + ((t.nsec : Int) - (u.nsec : Int))

/-- The method `t.Sub(u)` on wall-clock readings: the `Duration` (`int64`
nanoseconds) `t - u`, replaced by the largest or smallest `Duration` when the
difference does not fit. -/
def Time.Sub (t u : Time) : Int :=
  let d := nanosBetween t u
  if d < minInt64 then minInt64 else if maxInt64 < d then maxInt64 else d

/-- The call `time.Since(t)`, with the clock reading `now` of `time.Now()` made
explicit. -/
def timeSince (now t : Time) : Int := now.Sub t

/-! ## Data model (`notification.go`) -/

/-- One occurrence within a notification. -/
structure Event where
  At : Time
  Name : List Byte
  Data : List Byte
deriving DecidableEq, Repr

/-- The verified payload; a nil `Events` slice is `none`. -/
structure Notification where
  TriggerName : List Byte
  EntityID : List Byte
  Events : Option (List Event)
deriving DecidableEq, Repr

/-- The zero value `Notification{}`. -/
def Notification.zero : Notification := ⟨[], [], none⟩

/-- The package's error values. -/
inductive Err where
  | ErrInvalidHeader
  | ErrNoValidSignature
  | ErrNoSignature
  | ErrInvalidPayload
  | ErrSignatureTooOld
deriving DecidableEq, Repr

/-- The standard-library routines taken as given: HMAC-SHA256 as a function of
key and message, and `json.Unmarshal` into a fresh `Notification{}`, returning
the state of the destination after the call and whether the error is nil. -/
structure StdLib where
  hmacSha256 : List Byte → List Byte → List Byte
  jsonUnmarshal : List Byte → Notification × Bool

/-! ## Constants (`signing.go`) -/

/-- The HTTP header key used when sending the signature. -/
def HeaderKey : List Byte := bytes "EventDripper-Signature"

/-- Signatures older than this are rejected (300 seconds, in nanoseconds). -/
def MaxSignatureAge : Int := 300 * 1000000000

/-- The version of the signature currently used, `"v1"`. -/
def SigningVersion : List Byte := [118, 49]

/-- The field name `"t"`. -/
def timestampName : List Byte := [116]

/-! ## `ComputeSignature` -/

/-- A running `hash.Hash` made by `hmac.New(sha256.New, key)`: the key and the
bytes written so far. -/
structure Mac where
  key : List Byte
  written : List Byte

/-- The call `hmac.New(sha256.New, secret)`. -/
def hmacNew (secret : List Byte) : Mac := ⟨secret, []⟩

/-- The method `mac.Write(p)`. -/
def Mac.Write (m : Mac) (p : List Byte) : Mac := { m with written := m.written ++ p }

/-- The method `mac.Sum(nil)`. -/
def Mac.Sum (L : StdLib) (m : Mac) : List Byte := L.hmacSha256 m.key m.written

/-- ComputeSignature computes the signature of a webhook. -/
def ComputeSignature (L : StdLib) (secret : List Byte) (t : Time) (payload : List Byte) :
    List Byte :=
  let mac := hmacNew secret
  let mac := mac.Write (formatInt t.Unix)
  let mac := mac.Write [dot]
  let mac := mac.Write payload
  mac.Sum L

/-- The call `hmac.Equal(a, b)`: true exactly when the two slices have the same
length and contents. -/
def hmacEqual (a b : List Byte) : Bool := decide (a = b)

/-! ## The header codec -/

/-- The call `fmt.Sprintf("t=%d,%s=%s", t.Unix(), SigningVersion, hex.EncodeToString(signature))`. -/
def MakeHTTPHeader (t : Time) (signature : List Byte) : List Byte :=
  timestampName ++ [equalsSign] ++ formatInt t.Unix ++ [comma] ++ SigningVersion ++
    [equalsSign] ++ hexEncode signature

/-- The parsed header. -/
structure signedHeader where
  timestamp : Time
  signatures : List (List Byte)
deriving DecidableEq, Repr

/-- The zero value `signedHeader{}`. -/
def signedHeader.zero : signedHeader := ⟨⟨0, 0⟩, []⟩

/-- The loop of `parseSignatureHeader` over the comma-separated pairs; an error
is a return from inside the loop, `none` means the loop ran to its end. -/
def parsePairs (sh : signedHeader) : List (List Byte) → signedHeader × Option Err
  | [] => (sh, none)
  | pair :: rest =>
    match Split equalsSign pair with
    | [name, value] =>
      if name = timestampName then
        match ParseInt value with
        | none => (sh, some Err.ErrInvalidHeader)
        | some timestamp => parsePairs { sh with timestamp := timeUnix timestamp } rest
      else if name = SigningVersion then
        match hexDecode value with
        | none => parsePairs sh rest
        | some sig => parsePairs { sh with signatures := sh.signatures ++ [sig] } rest
      else parsePairs sh rest
    | _ => (sh, some Err.ErrInvalidHeader)

/-- The part of `parseSignatureHeader` that follows
`pairs := strings.Split(header, ",")`: the loop, then the check that at least
one signature was collected. -/
def parseFields (pairs : List (List Byte)) : signedHeader × Option Err :=
  match parsePairs signedHeader.zero pairs with
  | (sh, some e) => (sh, some e)
  | (sh, none) =>
    if sh.signatures.length = 0 then (sh, some Err.ErrNoValidSignature)
    else (sh, none)

/-- The function `parseSignatureHeader`; the second component is the returned
error, `none` for nil. -/
def parseSignatureHeader (header : List Byte) : signedHeader × Option Err :=
  if header = [] then (signedHeader.zero, some Err.ErrNoSignature)
  else parseFields (Split comma header)

/-! ## The verifier -/

/-- The body run at the first matching signature: decode the payload into a
fresh `Notification{}`; on a decoding error the zero value is returned, not
the partly filled structure. -/
def decodePayload (L : StdLib) (payload : List Byte) : Notification × Option Err :=
  match L.jsonUnmarshal payload with
  | (_, false) => (Notification.zero, some Err.ErrInvalidPayload)
  | (notification, true) => (notification, none)

/-- The loop of `ConstructNotification` over the candidate signatures, with
the return that follows it. -/
def verifyLoop (L : StdLib) (payload expectedSignature : List Byte) :
    List (List Byte) → Notification × Option Err
  | [] => (Notification.zero, some Err.ErrNoValidSignature)
  | gotSignature :: rest =>
    if hmacEqual expectedSignature gotSignature then decodePayload L payload
    else verifyLoop L payload expectedSignature rest

/-- ConstructNotification constructs a Notification, verifying the payload
using the given header and secret; `now` is the clock reading `time.Since`
takes. -/
def ConstructNotification (L : StdLib) (now : Time) (payload header secret : List Byte) :
    Notification × Option Err :=
  match parseSignatureHeader header with
  | (_, some err) => (Notification.zero, some err)
  | (sh, none) =>
    if timeSince now sh.timestamp > MaxSignatureAge then
      (Notification.zero, some Err.ErrSignatureTooOld)
    else
      verifyLoop L payload (ComputeSignature L secret sh.timestamp payload) sh.signatures

/-! ## Predicates used in the statements -/

/-- A pair at which the loop returns `ErrInvalidHeader`: it does not split
into exactly two parts at `=`, or it is a `t` pair whose value does not
parse. -/
def rejectedPair (pair : List Byte) : Prop :=
  (Split equalsSign pair).length ≠ 2 ∨
    ∃ value, Split equalsSign pair = [timestampName, value] ∧ ParseInt value = none

/-- Spec side: the signature a header field contributes to the result, the hex
decoding of its value when the field is `v1=value` and the value decodes, and
nothing otherwise. -/
def fieldSignature (f : List Byte) : Option (List Byte) :=
  match Split equalsSign f with
  | [name, value] => if name = SigningVersion then hexDecode value else none
  | _ => none

/-- Spec side: the Unix seconds a header field gives when it is `t=value` with
a value that parses, and nothing otherwise. -/
def fieldTimestamp (f : List Byte) : Option Int :=
  match Split equalsSign f with
  | [name, value] => if name = timestampName then ParseInt value else none
  | _ => none

/-- Spec side: the timestamp after a list of fields, that of the last `t`
field, or `init` when there is none. -/
def lastTimestamp (init : Time) (pairs : List (List Byte)) : Time :=
  pairs.foldl
    (fun acc f =>
      match fieldTimestamp f with
      | some ts => timeUnix ts
      | none => acc)
    init

/-- The call `strings.Join(fields, sep)` for a one-byte separator; used to
state the insertion of a field into a header. -/
def Join (sep : Byte) : List (List Byte) → List Byte
  | [] => []
  | [f] => f
  | f :: g :: rest => f ++ sep :: Join sep (g :: rest)

/-! ## Sample inputs -/

/-- The payload `json.Marshal` produces for a notification with trigger
`trigger-name`, entity `entity-id` and no events. -/
def samplePayload : List Byte :=
  bytes "\x7b\"trigger_name\":\"trigger-name\",\"entity_id\":\"entity-id\",\"events\":null\x7d"

/-- A payload that is valid JSON but whose `entity_id` is a number:
`json.Unmarshal` fills `TriggerName`, then reports a type error. -/
def partialPayload : List Byte :=
  bytes "\x7b\"trigger_name\":\"x\",\"entity_id\":5\x7d"

/-- A stand-in for the standard library, for evaluating the definitions on
concrete inputs: the MAC of a message is the key followed by the message, and
the decoder knows the two sample payloads and rejects everything else. -/
def sampleLib : StdLib where
  hmacSha256 := fun key msg => key ++ msg
  jsonUnmarshal := fun p =>
    if p = samplePayload then (⟨bytes "trigger-name", bytes "entity-id", none⟩, true)
    else if p = partialPayload then (⟨bytes "x", [], none⟩, false)
    else (Notification.zero, false)

/-- The instant `sec` seconds and `nsec` nanoseconds after January 1, 1970. -/
def unixInstant (sec : Int) (nsec : Nat) : Time := ⟨unixToInternal + sec, nsec⟩

/-! ## Freshness -/

theorem timeSince_gt_iff (now ts : Time) :
    timeSince now ts > MaxSignatureAge ↔ nanosBetween now ts > 300 * 1000000000 := by
  unfold timeSince Time.Sub MaxSignatureAge minInt64 maxInt64
  simp only []
  split_ifs <;> omega

/-! ## The verifier's control flow -/

theorem verifyLoop_of_mem (L : StdLib) (payload expected : List Byte) :
    ∀ sigs : List (List Byte), expected ∈ sigs →
      verifyLoop L payload expected sigs = decodePayload L payload := by
  intro sigs
  induction sigs with
  | nil => intro h; simp at h
  | cons got rest ih =>
    intro h
    by_cases hg : expected = got
    · simp [verifyLoop, hmacEqual, hg]
    · have hr : expected ∈ rest := by
        rcases List.mem_cons.mp h with h1 | h1
        · exact absurd h1 hg
        · exact h1
      simp [verifyLoop, hmacEqual, hg, ih hr]

theorem verifyLoop_of_not_mem (L : StdLib) (payload expected : List Byte) :
    ∀ sigs : List (List Byte), expected ∉ sigs →
      verifyLoop L payload expected sigs = (Notification.zero, some Err.ErrNoValidSignature) := by
  intro sigs
  induction sigs with
  | nil => intro _; rfl
  | cons got rest ih =>
    intro h
    have hg : expected ≠ got := fun e => h (by simp [e])
    have hr : expected ∉ rest := fun e => h (List.mem_cons_of_mem _ e)
    simp [verifyLoop, hmacEqual, hg, ih hr]

theorem decodePayload_eq (L : StdLib) (payload : List Byte) :
    decodePayload L payload =
      if (L.jsonUnmarshal payload).2 = true then ((L.jsonUnmarshal payload).1, none)
      else (Notification.zero, some Err.ErrInvalidPayload) := by
  unfold decodePayload
  rcases h : L.jsonUnmarshal payload with ⟨n, b⟩
  cases b <;> simp

theorem ConstructNotification_of_parsed (L : StdLib) (now : Time)
    (payload header secret : List Byte) (sh : signedHeader)
    (h : parseSignatureHeader header = (sh, none)) :
    ConstructNotification L now payload header secret =
      if nanosBetween now sh.timestamp > 300 * 1000000000 then
        (Notification.zero, some Err.ErrSignatureTooOld)
      else if ComputeSignature L secret sh.timestamp payload ∈ sh.signatures then
        decodePayload L payload
      else (Notification.zero, some Err.ErrNoValidSignature) := by
  unfold ConstructNotification
  rw [h]
  simp only []
  by_cases hs : nanosBetween now sh.timestamp > 300 * 1000000000
  · rw [if_pos ((timeSince_gt_iff now sh.timestamp).mpr hs), if_pos hs]
  · rw [if_neg (fun c => hs ((timeSince_gt_iff now sh.timestamp).mp c)), if_neg hs]
    by_cases hm : ComputeSignature L secret sh.timestamp payload ∈ sh.signatures
    · rw [if_pos hm, verifyLoop_of_mem L payload _ _ hm]
    · rw [if_neg hm, verifyLoop_of_not_mem L payload _ _ hm]

theorem ConstructNotification_of_parse_error (L : StdLib) (now : Time)
    (payload header secret : List Byte) (sh : signedHeader) (e : Err)
    (h : parseSignatureHeader header = (sh, some e)) :
    ConstructNotification L now payload header secret = (Notification.zero, some e) := by
  unfold ConstructNotification
  rw [h]

/-! ## One step of the header loop -/

theorem parsePairs_cons_malformed (sh : signedHeader) (pair : List Byte)
    (rest : List (List Byte)) (h : (Split equalsSign pair).length ≠ 2) :
    parsePairs sh (pair :: rest) = (sh, some Err.ErrInvalidHeader) := by
  unfold parsePairs
  rcases hs : Split equalsSign pair with _ | ⟨a, _ | ⟨b, _ | ⟨c, r⟩⟩⟩
  · rfl
  · rfl
  · rw [hs] at h; simp at h
  · rfl

theorem parsePairs_cons_timestamp_invalid (sh : signedHeader) (pair value : List Byte)
    (rest : List (List Byte)) (h : Split equalsSign pair = [timestampName, value])
    (hp : ParseInt value = none) :
    parsePairs sh (pair :: rest) = (sh, some Err.ErrInvalidHeader) := by
  unfold parsePairs
  rw [h]
  simp [hp]

theorem parsePairs_cons_timestamp (sh : signedHeader) (pair value : List Byte)
    (rest : List (List Byte)) (ts : Int) (h : Split equalsSign pair = [timestampName, value])
    (hp : ParseInt value = some ts) :
    parsePairs sh (pair :: rest) = parsePairs { sh with timestamp := timeUnix ts } rest := by
  rw [parsePairs, h]
  simp [hp]

theorem parsePairs_cons_signature (sh : signedHeader) (pair value sig : List Byte)
    (rest : List (List Byte)) (h : Split equalsSign pair = [SigningVersion, value])
    (hp : hexDecode value = some sig) :
    parsePairs sh (pair :: rest) =
      parsePairs { sh with signatures := sh.signatures ++ [sig] } rest := by
  rw [parsePairs, h]
  have hne : SigningVersion ≠ timestampName := by decide
  simp [hp, hne]

theorem parsePairs_cons_signature_invalid (sh : signedHeader) (pair value : List Byte)
    (rest : List (List Byte)) (h : Split equalsSign pair = [SigningVersion, value])
    (hp : hexDecode value = none) :
    parsePairs sh (pair :: rest) = parsePairs sh rest := by
  rw [parsePairs, h]
  have hne : SigningVersion ≠ timestampName := by decide
  simp [hp, hne]

theorem parsePairs_cons_unknown (sh : signedHeader) (pair name value : List Byte)
    (rest : List (List Byte)) (h : Split equalsSign pair = [name, value])
    (ht : name ≠ timestampName) (hv : name ≠ SigningVersion) :
    parsePairs sh (pair :: rest) = parsePairs sh rest := by
  rw [parsePairs, h]
  simp [ht, hv]

theorem parsePairs_cons_of_not_rejected (sh : signedHeader) (pair : List Byte)
    (h : ¬ rejectedPair pair) :
    ∃ sh2, ∀ rest, parsePairs sh (pair :: rest) = parsePairs sh2 rest := by
  unfold rejectedPair at h
  push_neg at h
  obtain ⟨hlen, ht⟩ := h
  rcases hs : Split equalsSign pair with _ | ⟨name, _ | ⟨value, _ | ⟨c, r⟩⟩⟩
  · rw [hs] at hlen; simp at hlen
  · rw [hs] at hlen; simp at hlen
  · by_cases hn : name = timestampName
    · subst hn
      cases hp : ParseInt value with
      | none => exact absurd hp (ht value hs)
      | some ts =>
        exact ⟨_, fun rest => parsePairs_cons_timestamp sh pair value rest ts hs hp⟩
    · by_cases hv : name = SigningVersion
      · subst hv
        cases hp : hexDecode value with
        | none =>
          exact ⟨_, fun rest => parsePairs_cons_signature_invalid sh pair value rest hs hp⟩
        | some sig =>
          exact ⟨_, fun rest => parsePairs_cons_signature sh pair value sig rest hs hp⟩
      · exact ⟨_, fun rest => parsePairs_cons_unknown sh pair name value rest hs hn hv⟩
  · rw [hs] at hlen; simp at hlen

theorem parsePairs_cons_of_rejected (sh : signedHeader) (pair : List Byte)
    (rest : List (List Byte)) (h : rejectedPair pair) :
    parsePairs sh (pair :: rest) = (sh, some Err.ErrInvalidHeader) := by
  rcases h with h | ⟨value, hs, hp⟩
  · exact parsePairs_cons_malformed sh pair rest h
  · exact parsePairs_cons_timestamp_invalid sh pair value rest hs hp

/-- The loop returns `ErrInvalidHeader` exactly when some pair is rejected, and
otherwise runs to its end. -/
theorem parsePairs_error_iff (pairs : List (List Byte)) :
    ∀ sh : signedHeader,
      ((parsePairs sh pairs).2 = some Err.ErrInvalidHeader ↔ ∃ f ∈ pairs, rejectedPair f) ∧
      ((parsePairs sh pairs).2 = none ↔ ¬ ∃ f ∈ pairs, rejectedPair f) := by
  induction pairs with
  | nil => intro sh; simp [parsePairs]
  | cons pair rest ih =>
    intro sh
    by_cases hr : rejectedPair pair
    · rw [parsePairs_cons_of_rejected sh pair rest hr]
      simp [hr]
    · obtain ⟨sh2, h2⟩ := parsePairs_cons_of_not_rejected sh pair hr
      rw [h2 rest]
      simp [hr, ih sh2]

theorem parsePairs_error_cases (sh : signedHeader) (pairs : List (List Byte)) :
    (parsePairs sh pairs).2 = none ∨ (parsePairs sh pairs).2 = some Err.ErrInvalidHeader := by
  by_cases h : ∃ f ∈ pairs, rejectedPair f
  · exact Or.inr ((parsePairs_error_iff pairs sh).1.mpr h)
  · exact Or.inl ((parsePairs_error_iff pairs sh).2.mpr h)

theorem parseFields_error_eq (pairs : List (List Byte)) :
    (parseFields pairs).2 =
      if (parsePairs signedHeader.zero pairs).2 = none then
        (if (parsePairs signedHeader.zero pairs).1.signatures.length = 0
          then some Err.ErrNoValidSignature else none)
      else (parsePairs signedHeader.zero pairs).2 := by
  unfold parseFields
  rcases h : parsePairs signedHeader.zero pairs with ⟨sh, _ | e⟩
  · by_cases hl : sh.signatures.length = 0 <;> simp [hl]
  · simp

theorem parseFields_invalid_iff (pairs : List (List Byte)) :
    (parseFields pairs).2 = some Err.ErrInvalidHeader ↔ ∃ f ∈ pairs, rejectedPair f := by
  rw [parseFields_error_eq, ← (parsePairs_error_iff pairs signedHeader.zero).1]
  rcases parsePairs_error_cases signedHeader.zero pairs with h | h
  · rw [h]
    simp only [if_true]
    split_ifs <;> simp
  · rw [h]
    simp

theorem parseSignatureHeader_error_cases (header : List Byte) :
    (header = [] ∧ (parseSignatureHeader header).2 = some Err.ErrNoSignature) ∨
    (header ≠ [] ∧ ((parseSignatureHeader header).2 = none ∨
      (parseSignatureHeader header).2 = some Err.ErrInvalidHeader ∨
      (parseSignatureHeader header).2 = some Err.ErrNoValidSignature)) := by
  by_cases hh : header = []
  · left
    simp [parseSignatureHeader, hh]
  · right
    refine ⟨hh, ?_⟩
    simp only [parseSignatureHeader, if_neg hh]
    rw [parseFields_error_eq]
    rcases parsePairs_error_cases signedHeader.zero (Split comma header) with h | h
    · rw [h]
      simp only [if_true]
      split_ifs <;> simp
    · rw [h]
      simp

/-! ## Facts about `Split` -/

theorem Split_ne_nil (sep : Byte) (s : List Byte) : Split sep s ≠ [] := by
  cases s with
  | nil => simp [Split]
  | cons c cs =>
    rw [Split]
    split_ifs
    · simp
    · split <;> simp

theorem Split_length (sep : Byte) (s : List Byte) :
    (Split sep s).length = s.count sep + 1 := by
  induction s with
  | nil => simp [Split]
  | cons c cs ih =>
    rw [Split]
    by_cases hc : c = sep
    · subst hc
      simp [ih]
    · have hc2 : (c == sep) = false := by simpa using hc
      rw [if_neg hc, List.count_cons, hc2]
      rcases hs : Split sep cs with _ | ⟨q, qs⟩
      · exact absurd hs (Split_ne_nil sep cs)
      · rw [hs] at ih
        simpa using ih

theorem Split_of_not_mem (sep : Byte) (s : List Byte) (h : sep ∉ s) : Split sep s = [s] := by
  induction s with
  | nil => rfl
  | cons c cs ih =>
    have hc : c ≠ sep := fun e => h (by simp [e])
    have hcs : sep ∉ cs := fun e => h (List.mem_cons_of_mem _ e)
    rw [Split, if_neg hc, ih hcs]

theorem Split_append_sep (sep : Byte) (a b : List Byte) (h : sep ∉ a) :
    Split sep (a ++ sep :: b) = a :: Split sep b := by
  induction a with
  | nil => simp [Split]
  | cons c cs ih =>
    have hc : c ≠ sep := fun e => h (by simp [e])
    have hcs : sep ∉ cs := fun e => h (List.mem_cons_of_mem _ e)
    rw [List.cons_append, Split, if_neg hc, ih hcs]

theorem Split_nil_mem (sep : Byte) (f : List Byte) (h : f ∈ Split sep []) : f = [] := by
  simpa [Split] using h

/-! ## Claims about `ConstructNotification` -/

/-- C1: `ConstructNotification` returns a nil error exactly when the header
parses, the parsed timestamp is at most 300 seconds before `now`, some
candidate signature (at any position) equals the computed signature, and the
payload decodes; the notification returned then is the decoding of the
payload. -/
theorem C1_nil_error_iff (L : StdLib) (now : Time) (payload header secret : List Byte) :
    ((ConstructNotification L now payload header secret).2 = none ↔
      ∃ sh, parseSignatureHeader header = (sh, none) ∧
        ¬ (nanosBetween now sh.timestamp > 300 * 1000000000) ∧
        (∃ s ∈ sh.signatures, s = ComputeSignature L secret sh.timestamp payload) ∧
        (L.jsonUnmarshal payload).2 = true) ∧
    ((ConstructNotification L now payload header secret).2 = none →
      (ConstructNotification L now payload header secret).1 = (L.jsonUnmarshal payload).1) := by
  rcases hp : parseSignatureHeader header with ⟨sh, _ | e⟩
  · rw [ConstructNotification_of_parsed L now payload header secret sh hp, decodePayload_eq]
    constructor
    · constructor
      · intro h
        refine ⟨sh, rfl, ?_⟩
        split_ifs at h with h1 h2 h3
        · exact ⟨h1, ⟨_, h2, rfl⟩, h3⟩
      · rintro ⟨sh2, he, h1, ⟨s, hs, rfl⟩, h3⟩
        have hsh : sh = sh2 := congrArg Prod.fst he
        subst hsh
        rw [if_neg h1, if_pos hs, if_pos h3]
    · intro h
      split_ifs at h with h1 h2 h3
      · rw [if_neg h1, if_pos h2, if_pos h3]
  · rw [ConstructNotification_of_parse_error L now payload header secret sh e hp]
    constructor
    · constructor
      · intro h; simp at h
      · rintro ⟨sh2, he, _⟩
        have := congrArg Prod.snd he
        simp at this
    · intro h; simp at h

/-- C1 at a header whose second candidate is the right signature, verified 300
seconds after signing. -/
theorem C1_nil_error_iff_witness :
    (ConstructNotification sampleLib (unixInstant 1700000300 0) samplePayload
        (bytes "t=1700000000,v1=00" ++ comma :: SigningVersion ++ equalsSign ::
          hexEncode (ComputeSignature sampleLib (bytes "k") (unixInstant 1700000000 0)
            samplePayload))
        (bytes "k")).2 = none ∧
    (ConstructNotification sampleLib (unixInstant 1700000300 0) samplePayload
        (bytes "t=1700000000,v1=00" ++ comma :: SigningVersion ++ equalsSign ::
          hexEncode (ComputeSignature sampleLib (bytes "k") (unixInstant 1700000000 0)
            samplePayload))
        (bytes "k")).1 = ⟨bytes "trigger-name", bytes "entity-id", none⟩ :=
  ⟨by decide,
   ((C1_nil_error_iff sampleLib (unixInstant 1700000300 0) samplePayload _ (bytes "k")).2
      (by decide)).trans (by decide)⟩

/-- C4: for a header that parses with timestamp `ts`, `ConstructNotification`
returns `ErrSignatureTooOld` exactly when `now - ts` exceeds 300 seconds,
whatever the payload, the secret and the candidate signatures are; an age of
exactly 300 seconds or a timestamp in the future is not reported as too old. -/
theorem C4_too_old_iff (L : StdLib) (now : Time) (payload header secret : List Byte)
    (sh : signedHeader) (h : parseSignatureHeader header = (sh, none)) :
    ((ConstructNotification L now payload header secret).2 = some Err.ErrSignatureTooOld ↔
      nanosBetween now sh.timestamp > 300 * 1000000000) ∧
    (nanosBetween now sh.timestamp > 300 * 1000000000 →
      ConstructNotification L now payload header secret =
        (Notification.zero, some Err.ErrSignatureTooOld)) ∧
    (nanosBetween now sh.timestamp ≤ 300 * 1000000000 →
      (ConstructNotification L now payload header secret).2 ≠ some Err.ErrSignatureTooOld) := by
  rw [ConstructNotification_of_parsed L now payload header secret sh h, decodePayload_eq]
  refine ⟨?_, ?_, ?_⟩
  · constructor
    · intro hc
      split_ifs at hc with h1 <;> first | exact h1 | simp at hc
    · intro hc
      rw [if_pos hc]
  · intro hc
    rw [if_pos hc]
  · intro hc
    rw [if_neg (by omega)]
    split_ifs <;> simp

/-- C4 at a header signed one day before `now`, with a matching signature. -/
theorem C4_too_old_iff_witness :
    parseSignatureHeader (MakeHTTPHeader (unixInstant 1700000000 0) [171]) =
      (⟨timeUnix 1700000000, [[171]]⟩, none) ∧
    ConstructNotification sampleLib (unixInstant 1700086400 0) samplePayload
      (MakeHTTPHeader (unixInstant 1700000000 0) [171]) (bytes "k") =
        (Notification.zero, some Err.ErrSignatureTooOld) :=
  ⟨by decide,
   (C4_too_old_iff sampleLib (unixInstant 1700086400 0) samplePayload
      (MakeHTTPHeader (unixInstant 1700000000 0) [171]) (bytes "k")
      ⟨timeUnix 1700000000, [[171]]⟩ (by decide)).2.1 (by decide)⟩

/-- C5: for a header that parses and is fresh, if no candidate signature
equals the computed one then `ConstructNotification` returns
`ErrNoValidSignature`, whether or not the payload decodes; and
`ErrInvalidPayload` is returned only when the header parsed and some candidate
matched. -/
theorem C5_authentication_before_decoding (L : StdLib) (now : Time)
    (payload header secret : List Byte) :
    (∀ sh, parseSignatureHeader header = (sh, none) →
      ¬ (nanosBetween now sh.timestamp > 300 * 1000000000) →
      (∀ s ∈ sh.signatures, s ≠ ComputeSignature L secret sh.timestamp payload) →
      ConstructNotification L now payload header secret =
        (Notification.zero, some Err.ErrNoValidSignature)) ∧
    ((ConstructNotification L now payload header secret).2 = some Err.ErrInvalidPayload →
      ∃ sh, parseSignatureHeader header = (sh, none) ∧
        ∃ s ∈ sh.signatures, s = ComputeSignature L secret sh.timestamp payload) := by
  constructor
  · intro sh hp hfresh hno
    rw [ConstructNotification_of_parsed L now payload header secret sh hp, if_neg hfresh,
      if_neg (fun hm => hno _ hm rfl)]
  · intro he
    rcases hp : parseSignatureHeader header with ⟨sh, _ | e⟩
    · refine ⟨sh, rfl, ?_⟩
      rw [ConstructNotification_of_parsed L now payload header secret sh hp] at he
      split_ifs at he with h1 h2
      · simp at he
      · exact ⟨_, h2, rfl⟩
      · simp at he
    · rw [ConstructNotification_of_parse_error L now payload header secret sh e hp] at he
      rcases parseSignatureHeader_error_cases header with ⟨_, h2⟩ | ⟨_, h2 | h2 | h2⟩ <;>
        rw [hp] at h2 <;> simp at h2 <;> subst h2 <;> simp at he

/-- C5 at a fresh header signed over the sample payload, presented with the
undecodable payload `invalid payload`. -/
theorem C5_authentication_before_decoding_witness :
    ConstructNotification sampleLib (unixInstant 1700000010 0) (bytes "invalid payload")
      (MakeHTTPHeader (unixInstant 1700000000 0)
        (ComputeSignature sampleLib (bytes "k") (unixInstant 1700000000 0) samplePayload))
      (bytes "k") = (Notification.zero, some Err.ErrNoValidSignature) :=
  (C5_authentication_before_decoding sampleLib (unixInstant 1700000010 0)
    (bytes "invalid payload")
    (MakeHTTPHeader (unixInstant 1700000000 0)
      (ComputeSignature sampleLib (bytes "k") (unixInstant 1700000000 0) samplePayload))
    (bytes "k")).1
    ⟨timeUnix 1700000000,
      [ComputeSignature sampleLib (bytes "k") (unixInstant 1700000000 0) samplePayload]⟩
    (by decide) (by decide) (by decide)

/-- C6: whenever `ConstructNotification` returns a non-nil error, the
notification it returns is the zero value, also when the signature matched and
decoding failed after filling part of the structure. -/
theorem C6_zero_on_error (L : StdLib) (now : Time) (payload header secret : List Byte)
    (h : (ConstructNotification L now payload header secret).2 ≠ none) :
    (ConstructNotification L now payload header secret).1 = Notification.zero := by
  rcases hp : parseSignatureHeader header with ⟨sh, _ | e⟩
  · rw [ConstructNotification_of_parsed L now payload header secret sh hp, decodePayload_eq]
      at h ⊢
    split_ifs at h ⊢ <;> first | rfl | simp at h
  · rw [ConstructNotification_of_parse_error L now payload header secret sh e hp]

/-- C6 at a correctly signed payload whose decoding fails after `TriggerName`
was filled in. -/
theorem C6_zero_on_error_witness :
    (sampleLib.jsonUnmarshal partialPayload).1 ≠ Notification.zero ∧
    (ConstructNotification sampleLib (unixInstant 1700000010 0) partialPayload
      (MakeHTTPHeader (unixInstant 1700000000 0)
        (ComputeSignature sampleLib (bytes "k") (unixInstant 1700000000 0) partialPayload))
      (bytes "k")).2 = some Err.ErrInvalidPayload ∧
    (ConstructNotification sampleLib (unixInstant 1700000010 0) partialPayload
      (MakeHTTPHeader (unixInstant 1700000000 0)
        (ComputeSignature sampleLib (bytes "k") (unixInstant 1700000000 0) partialPayload))
      (bytes "k")).1 = Notification.zero :=
  ⟨by decide, by decide,
   C6_zero_on_error sampleLib (unixInstant 1700000010 0) partialPayload
    (MakeHTTPHeader (unixInstant 1700000000 0)
      (ComputeSignature sampleLib (bytes "k") (unixInstant 1700000000 0) partialPayload))
    (bytes "k") (by decide)⟩

/-- A pair the loop passes over without effect may be dropped from the list. -/
theorem parsePairs_drop_skipped (f : List Byte) (post : List (List Byte))
    (hskip : ∀ sh rest, parsePairs sh (f :: rest) = parsePairs sh rest)
    (pre : List (List Byte)) :
    ∀ sh, parsePairs sh (pre ++ f :: post) = parsePairs sh (pre ++ post) := by
  induction pre with
  | nil => intro sh; exact hskip sh post
  | cons p ps ih =>
    intro sh
    by_cases hr : rejectedPair p
    · rw [List.cons_append, List.cons_append, parsePairs_cons_of_rejected sh p _ hr,
        parsePairs_cons_of_rejected sh p _ hr]
    · obtain ⟨sh2, h2⟩ := parsePairs_cons_of_not_rejected sh p hr
      rw [List.cons_append, List.cons_append, h2, h2, ih sh2]

theorem header_ne_nil_of_field (header f : List Byte) (hf : f ∈ Split comma header)
    (hne : f ≠ []) : header ≠ [] := by
  intro h
  subst h
  exact hne (Split_nil_mem comma f hf)

/-! ## Claims about `parseSignatureHeader` -/

/-- C7: `parseSignatureHeader` returns `ErrNoSignature` exactly for the empty
header, and `ConstructNotification` with an empty header returns
`ErrNoSignature` for every payload, secret and clock reading. -/
theorem C7_no_signature_iff (header : List Byte) :
    ((parseSignatureHeader header).2 = some Err.ErrNoSignature ↔ header = []) ∧
    (∀ (L : StdLib) (now : Time) (payload secret : List Byte),
      ConstructNotification L now payload [] secret =
        (Notification.zero, some Err.ErrNoSignature)) := by
  constructor
  · constructor
    · intro h
      rcases parseSignatureHeader_error_cases header with ⟨h1, _⟩ | ⟨_, h2 | h2 | h2⟩
      · exact h1
      · rw [h2] at h; simp at h
      · rw [h2] at h; simp at h
      · rw [h2] at h; simp at h
    · intro h
      simp [parseSignatureHeader, h]
  · intro L now payload secret
    exact ConstructNotification_of_parse_error L now payload [] secret signedHeader.zero _
      (by simp [parseSignatureHeader])

/-- C8: a non-empty header in which some comma-separated field does not
contain exactly one `=` is rejected with `ErrInvalidHeader`, whatever the other
fields are. -/
theorem C8_malformed_field (header f : List Byte) (hne : header ≠ [])
    (hf : f ∈ Split comma header) (hcount : f.count equalsSign ≠ 1) :
    (parseSignatureHeader header).2 = some Err.ErrInvalidHeader := by
  simp only [parseSignatureHeader, if_neg hne]
  rw [parseFields_invalid_iff]
  refine ⟨f, hf, Or.inl ?_⟩
  rw [Split_length]
  omega

/-- C8 at a header with valid `t` and `v1` fields and a trailing comma, whose
last field is empty. -/
theorem C8_malformed_field_witness :
    (parseSignatureHeader (bytes "t=1700000000,v1=ab,")).2 = some Err.ErrInvalidHeader :=
  C8_malformed_field (bytes "t=1700000000,v1=ab,") [] (by decide) (by decide) (by decide)

/-- C9 as stated fails: the header `=abc`, whose only field has an empty name,
yields `ErrNoValidSignature`, and a valid header followed by `=abc` parses. -/
theorem C9_counterexample :
    parseSignatureHeader (bytes "=abc") = (signedHeader.zero, some Err.ErrNoValidSignature) ∧
    parseSignatureHeader (bytes "t=1,v1=ab,=abc") = (⟨timeUnix 1, [[171]]⟩, none) := by
  decide

/-- C9, amended: a field with an empty name and a single `=` is passed over
like any unknown field; the result for the header is the result of the loop
and final check on the remaining fields. -/
theorem C9_empty_name_ignored (header value : List Byte) (front back : List (List Byte))
    (hsplit : Split comma header = front ++ (equalsSign :: value) :: back)
    (hval : equalsSign ∉ value) :
    parseSignatureHeader header = parseFields (front ++ back) := by
  have hne : header ≠ [] :=
    header_ne_nil_of_field header (equalsSign :: value) (by rw [hsplit]; simp) (by simp)
  have hs : Split equalsSign (equalsSign :: value) = [[], value] := by
    rw [Split, if_pos rfl, Split_of_not_mem equalsSign value hval]
  have hskip : ∀ sh rest, parsePairs sh ((equalsSign :: value) :: rest) = parsePairs sh rest :=
    fun sh rest => parsePairs_cons_unknown sh _ [] value rest hs (by decide) (by decide)
  simp only [parseSignatureHeader, if_neg hne, parseFields]
  rw [hsplit, parsePairs_drop_skipped _ back hskip front signedHeader.zero]

/-- C9, amended, at the header `t=1,=abc,v1=ab`. -/
theorem C9_empty_name_ignored_witness :
    parseSignatureHeader (bytes "t=1,=abc,v1=ab") = parseFields [bytes "t=1", bytes "v1=ab"] ∧
    parseFields [bytes "t=1", bytes "v1=ab"] = (⟨timeUnix 1, [[171]]⟩, none) :=
  ⟨C9_empty_name_ignored (bytes "t=1,=abc,v1=ab") (bytes "abc") [bytes "t=1"] [bytes "v1=ab"]
    (by decide) (by decide), by decide⟩

/-- C10: a header with a field `t=value` whose value `strconv.ParseInt`
rejects is answered with `ErrInvalidHeader`, also when the header has no
signature at all. -/
theorem C10_invalid_timestamp (header f value : List Byte) (hf : f ∈ Split comma header)
    (hname : f = timestampName ++ equalsSign :: value) (hbad : ParseInt value = none) :
    (parseSignatureHeader header).2 = some Err.ErrInvalidHeader := by
  have hne : header ≠ [] := header_ne_nil_of_field header f hf (by rw [hname]; simp [timestampName])
  simp only [parseSignatureHeader, if_neg hne]
  rw [parseFields_invalid_iff]
  refine ⟨f, hf, ?_⟩
  have ht : equalsSign ∉ timestampName := by decide
  by_cases hv : equalsSign ∈ value
  · left
    have hc : 0 < value.count equalsSign := List.count_pos_iff.mpr hv
    rw [Split_length, hname]
    simp only [List.count_append, List.count_cons_self]
    omega
  · right
    refine ⟨value, ?_, hbad⟩
    rw [hname, Split_append_sep equalsSign timestampName value ht,
      Split_of_not_mem equalsSign value hv]

/-- C10 at values that are not digits, empty, and out of range, in headers
without and with a signature. -/
theorem C10_invalid_timestamp_witness :
    (parseSignatureHeader (bytes "t=not-a-number")).2 = some Err.ErrInvalidHeader ∧
    (parseSignatureHeader (bytes "v1=ab,t=")).2 = some Err.ErrInvalidHeader ∧
    (parseSignatureHeader (bytes "t=9223372036854775808,v1=ab")).2 =
      some Err.ErrInvalidHeader :=
  ⟨C10_invalid_timestamp (bytes "t=not-a-number") (bytes "t=not-a-number")
      (bytes "not-a-number") (by decide) (by decide) (by decide),
   C10_invalid_timestamp (bytes "v1=ab,t=") (bytes "t=") [] (by decide) (by decide)
      (by decide),
   C10_invalid_timestamp (bytes "t=9223372036854775808,v1=ab") (bytes "t=9223372036854775808")
      (bytes "9223372036854775808") (by decide) (by decide) (by decide)⟩

/-! ## Decimal round trip -/

theorem digitByte_val (d : Nat) : (digitByte d).val = 48 + d % 10 := by
  have h : d % 10 < 10 := Nat.mod_lt _ (by decide)
  simp only [digitByte, Fin.ofNat, Nat.succ_eq_add_one]
  omega

theorem digitVal_digitByte (d : Nat) : digitVal (digitByte d) = some (d % 10) := by
  have h : d % 10 < 10 := Nat.mod_lt _ (by decide)
  unfold digitVal
  rw [digitByte_val, if_pos (by omega)]
  congr 1
  omega

theorem parseDigits_formatUintAux (fuel : Nat) :
    ∀ (n : Nat) (acc : List Byte), n < fuel →
      parseDigits 0 (formatUintAux fuel n acc) = parseDigits n acc := by
  induction fuel with
  | zero => intro n acc h; omega
  | succ fuel ih =>
    intro n acc h
    rw [formatUintAux]
    by_cases hn : n < 10
    · rw [if_pos hn, parseDigits, digitVal_digitByte]
      simp only []
      congr 1
      omega
    · rw [if_neg hn, ih (n / 10) _ (by omega), parseDigits, digitVal_digitByte]
      simp only []
      congr 1
      omega

theorem formatUintAux_head (fuel : Nat) :
    ∀ (n : Nat) (acc : List Byte), n < fuel →
      ∃ d rest, formatUintAux fuel n acc = digitByte d :: rest := by
  induction fuel with
  | zero => intro n acc h; omega
  | succ fuel ih =>
    intro n acc h
    rw [formatUintAux]
    by_cases hn : n < 10
    · rw [if_pos hn]
      exact ⟨n, acc, rfl⟩
    · rw [if_neg hn]
      exact ih (n / 10) _ (by omega)

theorem formatUintAux_mem (fuel : Nat) :
    ∀ (n : Nat) (acc : List Byte) (c : Byte), c ∈ formatUintAux fuel n acc →
      (48 ≤ c.val ∧ c.val ≤ 57) ∨ c ∈ acc := by
  induction fuel with
  | zero => intro n acc c h; right; simpa [formatUintAux] using h
  | succ fuel ih =>
    intro n acc c h
    rw [formatUintAux] at h
    have hd : ∀ d, 48 ≤ (digitByte d).val ∧ (digitByte d).val ≤ 57 := by
      intro d
      have := Nat.mod_lt d (show 0 < 10 by decide)
      rw [digitByte_val]
      omega
    by_cases hn : n < 10
    · rw [if_pos hn] at h
      rcases List.mem_cons.mp h with h | h
      · left; rw [h]; exact hd n
      · right; exact h
    · rw [if_neg hn] at h
      rcases ih _ _ c h with h | h
      · left; exact h
      · rcases List.mem_cons.mp h with h | h
        · left; rw [h]; exact hd _
        · right; exact h

theorem ParseUint_of_parseDigits (c : Byte) (cs : List Byte) (n : Nat)
    (hp : parseDigits 0 (c :: cs) = some n) (h : n ≤ maxUint64) :
    ParseUint (c :: cs) = some n := by
  simp only [ParseUint, hp, if_pos h]

theorem ParseUint_formatUint (n : Nat) (h : n ≤ maxUint64) :
    ParseUint (formatUint n) = some n := by
  obtain ⟨d, rest, hd⟩ := formatUintAux_head (n + 1) n [] (Nat.lt_succ_self n)
  have hp := parseDigits_formatUintAux (n + 1) n [] (Nat.lt_succ_self n)
  unfold formatUint
  rw [hd] at hp ⊢
  exact ParseUint_of_parseDigits _ _ n (by rw [hp]; rfl) h

theorem ParseInt_cons_minus (cs : List Byte) (un : Nat) (hu : ParseUint cs = some un)
    (h : un ≤ 9223372036854775808) : ParseInt (minusSign :: cs) = some (-(un : Int)) := by
  have hpm : minusSign ≠ plusSign := by decide
  simp only [ParseInt, if_neg hpm, if_true, hu, decide_True]
  rw [if_neg (by simp), if_neg (by simp; omega)]

theorem ParseInt_cons_digit (c : Byte) (cs : List Byte) (un : Nat) (h1 : c ≠ plusSign)
    (h2 : c ≠ minusSign) (hu : ParseUint (c :: cs) = some un)
    (h : un < 9223372036854775808) : ParseInt (c :: cs) = some (un : Int) := by
  simp only [ParseInt, if_neg h1, if_neg h2, hu, decide_eq_false h2]
  rw [if_neg (by simp; omega), if_neg (by simp)]
  simp

theorem ParseInt_formatInt (i : Int) (hlo : minInt64 ≤ i) (hhi : i ≤ maxInt64) :
    ParseInt (formatInt i) = some i := by
  unfold minInt64 at hlo
  unfold maxInt64 at hhi
  obtain ⟨d, rest, hd⟩ := formatUintAux_head (i.natAbs + 1) i.natAbs [] (Nat.lt_succ_self _)
  have hu : ParseUint (formatUint i.natAbs) = some i.natAbs :=
    ParseUint_formatUint _ (by unfold maxUint64; omega)
  have hdv := digitByte_val d
  have hdm : d % 10 < 10 := Nat.mod_lt _ (by decide)
  have h1 : digitByte d ≠ plusSign := by
    intro e
    have := congrArg Fin.val e
    rw [hdv] at this
    simp [plusSign] at this
    omega
  have h2 : digitByte d ≠ minusSign := by
    intro e
    have := congrArg Fin.val e
    rw [hdv] at this
    simp [minusSign] at this
    omega
  unfold formatInt
  by_cases hneg : i < 0
  · rw [if_pos hneg, ParseInt_cons_minus _ _ hu (by omega)]
    congr 1
    omega
  · rw [if_neg hneg]
    have hf : formatUint i.natAbs = digitByte d :: rest := hd
    rw [hf] at hu ⊢
    rw [ParseInt_cons_digit _ _ _ h1 h2 hu (by omega)]
    congr 1
    omega

theorem formatInt_mem (i : Int) (c : Byte) (h : c ∈ formatInt i) :
    c ≠ comma ∧ c ≠ equalsSign := by
  have key : (48 ≤ c.val ∧ c.val ≤ 57) ∨ c = minusSign := by
    unfold formatInt formatUint at h
    split_ifs at h
    · rcases List.mem_cons.mp h with h | h
      · right; exact h
      · rcases formatUintAux_mem _ _ _ c h with h | h
        · left; exact h
        · simp at h
    · rcases formatUintAux_mem _ _ _ c h with h | h
      · left; exact h
      · simp at h
  rcases key with ⟨h1, h2⟩ | h1
  · constructor
    · intro e
      subst e
      exact absurd h1 (by decide)
    · intro e
      subst e
      exact absurd h2 (by decide)
  · rw [h1]
    decide

theorem wrapInt64_range (x : Int) : minInt64 ≤ wrapInt64 x ∧ wrapInt64 x ≤ maxInt64 := by
  unfold wrapInt64 minInt64 maxInt64
  omega

theorem wrapInt64_of_range (x : Int) (hlo : minInt64 ≤ x) (hhi : x ≤ maxInt64) :
    wrapInt64 x = x := by
  unfold minInt64 at hlo
  unfold maxInt64 at hhi
  unfold wrapInt64
  omega

theorem Unix_timeUnix (s : Int) (hlo : minInt64 ≤ s) (hhi : s ≤ maxInt64) :
    (timeUnix s).Unix = s := by
  unfold minInt64 at hlo
  unfold maxInt64 at hhi
  unfold Time.Unix timeUnix wrapInt64 unixToInternal
  simp only []
  omega

theorem timeUnix_Unix (t : Time) (hlo : minInt64 ≤ t.sec) (hhi : t.sec ≤ maxInt64) :
    timeUnix t.Unix = ⟨t.sec, 0⟩ := by
  unfold minInt64 at hlo
  unfold maxInt64 at hhi
  unfold Time.Unix timeUnix wrapInt64 unixToInternal
  congr 1
  omega

/-! ## Hexadecimal round trip -/

theorem hexDigit_val (n : Nat) :
    (hexDigit n).val = if n % 16 < 10 then 48 + n % 16 else 87 + n % 16 := by
  have h : n % 16 < 16 := Nat.mod_lt _ (by decide)
  unfold hexDigit
  split_ifs <;> simp only [Fin.ofNat, Nat.succ_eq_add_one] <;> omega

theorem fromHexChar_hexDigit (n : Nat) : fromHexChar (hexDigit n) = some (n % 16) := by
  have h : n % 16 < 16 := Nat.mod_lt _ (by decide)
  unfold fromHexChar
  rw [hexDigit_val]
  by_cases hn : n % 16 < 10
  · rw [if_pos hn, if_pos (by omega)]
    congr 1
    omega
  · rw [if_neg hn, if_neg (by omega), if_pos (by omega)]
    congr 1
    omega

theorem hexDecode_hexEncode (sig : List Byte) : hexDecode (hexEncode sig) = some sig := by
  induction sig with
  | nil => rfl
  | cons b bs ih =>
    have hb : b.val < 256 := b.isLt
    have he : (Fin.ofNat (b.val / 16 % 16 * 16 + b.val % 16 % 16) : Byte) = b := by
      apply Fin.ext
      simp only [Fin.ofNat, Nat.succ_eq_add_one]
      omega
    simp only [hexEncode, hexDecode, fromHexChar_hexDigit, ih, he]

theorem hexEncode_mem (sig : List Byte) (c : Byte) (h : c ∈ hexEncode sig) :
    c ≠ comma ∧ c ≠ equalsSign := by
  have key : ∀ n, hexDigit n ≠ comma ∧ hexDigit n ≠ equalsSign := by
    intro n
    have hv := hexDigit_val n
    have hn : n % 16 < 16 := Nat.mod_lt _ (by decide)
    constructor <;> intro e <;> rw [e] at hv <;> simp [comma, equalsSign] at hv <;>
      split_ifs at hv <;> omega
  induction sig with
  | nil => simp [hexEncode] at h
  | cons b bs ih =>
    simp only [hexEncode, List.mem_cons] at h
    rcases h with h | h | h
    · rw [h]; exact key _
    · rw [h]; exact key _
    · exact ih h

/-! ## Header round trip -/

theorem MakeHTTPHeader_eq (t : Time) (sig : List Byte) :
    MakeHTTPHeader t sig =
      (timestampName ++ equalsSign :: formatInt t.Unix) ++
        comma :: (SigningVersion ++ equalsSign :: hexEncode sig) := by
  simp [MakeHTTPHeader]

theorem Split_MakeHTTPHeader (t : Time) (sig : List Byte) :
    Split comma (MakeHTTPHeader t sig) =
      [timestampName ++ equalsSign :: formatInt t.Unix,
        SigningVersion ++ equalsSign :: hexEncode sig] := by
  have h1 : comma ∉ timestampName ++ equalsSign :: formatInt t.Unix := by
    intro h
    rcases List.mem_append.mp h with h | h
    · exact absurd h (by decide)
    · rcases List.mem_cons.mp h with h | h
      · exact absurd h (by decide)
      · exact (formatInt_mem _ _ h).1 rfl
  have h2 : comma ∉ SigningVersion ++ equalsSign :: hexEncode sig := by
    intro h
    rcases List.mem_append.mp h with h | h
    · exact absurd h (by decide)
    · rcases List.mem_cons.mp h with h | h
      · exact absurd h (by decide)
      · exact (hexEncode_mem _ _ h).1 rfl
  rw [MakeHTTPHeader_eq, Split_append_sep comma _ _ h1, Split_of_not_mem comma _ h2]

theorem parseSignatureHeader_MakeHTTPHeader (t : Time) (sig : List Byte) :
    parseSignatureHeader (MakeHTTPHeader t sig) = (⟨timeUnix t.Unix, [sig]⟩, none) := by
  have hne : MakeHTTPHeader t sig ≠ [] := by
    rw [MakeHTTPHeader_eq]
    simp [timestampName]
  have ht : Split equalsSign (timestampName ++ equalsSign :: formatInt t.Unix) =
      [timestampName, formatInt t.Unix] := by
    rw [Split_append_sep equalsSign _ _ (by decide),
      Split_of_not_mem equalsSign _ (fun h => (formatInt_mem _ _ h).2 rfl)]
  have hv : Split equalsSign (SigningVersion ++ equalsSign :: hexEncode sig) =
      [SigningVersion, hexEncode sig] := by
    rw [Split_append_sep equalsSign _ _ (by decide),
      Split_of_not_mem equalsSign _ (fun h => (hexEncode_mem _ _ h).2 rfl)]
  have hp : ParseInt (formatInt t.Unix) = some t.Unix :=
    ParseInt_formatInt _ (wrapInt64_range _).1 (wrapInt64_range _).2
  simp only [parseSignatureHeader, if_neg hne, Split_MakeHTTPHeader, parseFields]
  rw [parsePairs_cons_timestamp _ _ _ _ _ ht hp,
    parsePairs_cons_signature _ _ _ _ _ hv (hexDecode_hexEncode sig)]
  simp [parsePairs, signedHeader.zero]

/-- C3: parsing the header made from a timestamp `t` and a signature `sig`
succeeds; the timestamp is `time.Unix(t.Unix(), 0)`, which has the Unix
seconds of `t` and no nanoseconds (for a `t` whose seconds fit `int64`, `t`
with its nanoseconds cleared), and the signatures are the one-element list
`[sig]`. -/
theorem C3_header_round_trip (t : Time) (sig : List Byte) :
    parseSignatureHeader (MakeHTTPHeader t sig) = (⟨timeUnix t.Unix, [sig]⟩, none) ∧
    (timeUnix t.Unix).Unix = t.Unix ∧ (timeUnix t.Unix).nsec = 0 ∧
    (minInt64 ≤ t.sec → t.sec ≤ maxInt64 → timeUnix t.Unix = ⟨t.sec, 0⟩) :=
  ⟨parseSignatureHeader_MakeHTTPHeader t sig,
   Unix_timeUnix _ (wrapInt64_range _).1 (wrapInt64_range _).2, rfl,
   timeUnix_Unix t⟩

/-- C3 at a time before 1970 with nanoseconds, and the empty signature. -/
theorem C3_header_round_trip_witness :
    MakeHTTPHeader (unixInstant (-5) 999999999) [] = bytes "t=-5,v1=" ∧
    parseSignatureHeader (MakeHTTPHeader (unixInstant (-5) 999999999) []) =
      (⟨unixInstant (-5) 0, [[]]⟩, none) := by
  refine ⟨by decide, ?_⟩
  have h := C3_header_round_trip (unixInstant (-5) 999999999) []
  rw [h.2.2.2 (by decide) (by decide)] at h
  exact h.1

/-! ## Sign, then verify -/

theorem ComputeSignature_timeUnix (L : StdLib) (secret payload : List Byte) (t : Time) :
    ComputeSignature L secret (timeUnix t.Unix) payload = ComputeSignature L secret t payload := by
  have h : (timeUnix t.Unix).Unix = t.Unix :=
    Unix_timeUnix t.Unix (wrapInt64_range (t.sec - unixToInternal)).1
      (wrapInt64_range (t.sec - unixToInternal)).2
  unfold ComputeSignature
  rw [h]

/-- C2 as stated fails: a header signed at second `1700000000` plus 0.9 s and
verified 299.2 s later is within the 300 seconds, carries the right signature
over a decodable payload, and is rejected as too old, because the header
carries whole seconds only. -/
theorem C2_counterexample :
    nanosBetween (unixInstant 1700000300 100000000) (unixInstant 1700000000 900000000) =
      299200000000 ∧
    sampleLib.jsonUnmarshal samplePayload =
      (⟨bytes "trigger-name", bytes "entity-id", none⟩, true) ∧
    ConstructNotification sampleLib (unixInstant 1700000300 100000000) samplePayload
      (MakeHTTPHeader (unixInstant 1700000000 900000000)
        (ComputeSignature sampleLib (bytes "k") (unixInstant 1700000000 900000000)
          samplePayload))
      (bytes "k") = (Notification.zero, some Err.ErrSignatureTooOld) := by
  decide

/-- C2, amended: when `now` is at most 300 seconds after `t` truncated to whole
Unix seconds (`t` may lie in the future), verifying a payload against the
header made from `t` and the signature computed for `t` returns the decoded
notification with a nil error if the payload decodes, and `ErrInvalidPayload`
with the zero notification if it does not. -/
theorem C2_sign_then_verify (L : StdLib) (now t : Time) (secret payload : List Byte)
    (hfresh : nanosBetween now (timeUnix t.Unix) ≤ 300 * 1000000000) :
    ((L.jsonUnmarshal payload).2 = true →
      ConstructNotification L now payload
        (MakeHTTPHeader t (ComputeSignature L secret t payload)) secret =
          ((L.jsonUnmarshal payload).1, none)) ∧
    ((L.jsonUnmarshal payload).2 = false →
      ConstructNotification L now payload
        (MakeHTTPHeader t (ComputeSignature L secret t payload)) secret =
          (Notification.zero, some Err.ErrInvalidPayload)) := by
  have hc := ConstructNotification_of_parsed L now payload
    (MakeHTTPHeader t (ComputeSignature L secret t payload)) secret _
    (parseSignatureHeader_MakeHTTPHeader t (ComputeSignature L secret t payload))
  simp only [ComputeSignature_timeUnix] at hc
  rw [if_neg (by omega), if_pos (by simp), decodePayload_eq] at hc
  rw [hc]
  constructor
  · intro h
    rw [if_pos h]
  · intro h
    rw [if_neg (by simp [h])]

/-- C2, amended, at a timestamp five seconds in the future with a decodable
payload, and at one exactly 300 seconds old with an undecodable payload. -/
theorem C2_sign_then_verify_witness :
    ConstructNotification sampleLib (unixInstant 1700000000 0) samplePayload
      (MakeHTTPHeader (unixInstant 1700000005 7)
        (ComputeSignature sampleLib (bytes "k") (unixInstant 1700000005 7) samplePayload))
      (bytes "k") = (⟨bytes "trigger-name", bytes "entity-id", none⟩, none) ∧
    ConstructNotification sampleLib (unixInstant 1700000300 0) (bytes "invalid payload")
      (MakeHTTPHeader (unixInstant 1700000000 0)
        (ComputeSignature sampleLib (bytes "k") (unixInstant 1700000000 0)
          (bytes "invalid payload")))
      (bytes "k") = (Notification.zero, some Err.ErrInvalidPayload) :=
  ⟨((C2_sign_then_verify sampleLib (unixInstant 1700000000 0) (unixInstant 1700000005 7)
      (bytes "k") samplePayload (by decide)).1 (by decide)).trans (by decide),
   (C2_sign_then_verify sampleLib (unixInstant 1700000300 0) (unixInstant 1700000000 0)
      (bytes "k") (bytes "invalid payload") (by decide)).2 (by decide)⟩

/-! ## `Split` and `Join` -/

theorem Split_mem_no_sep (sep : Byte) (s : List Byte) :
    ∀ f ∈ Split sep s, sep ∉ f := by
  induction s with
  | nil => intro f hf; simp [Split] at hf; simp [hf]
  | cons c cs ih =>
    intro f hf
    rw [Split] at hf
    by_cases hc : c = sep
    · rw [if_pos hc] at hf
      rcases List.mem_cons.mp hf with h | h
      · simp [h]
      · exact ih f h
    · rw [if_neg hc] at hf
      rcases hs : Split sep cs with _ | ⟨q, qs⟩
      · exact absurd hs (Split_ne_nil sep cs)
      · rw [hs] at hf ih
        rcases List.mem_cons.mp hf with h | h
        · rw [h]
          intro hm
          rcases List.mem_cons.mp hm with h1 | h1
          · exact hc h1.symm
          · exact ih q (by simp) h1
        · exact ih f (List.mem_cons_of_mem _ h)

theorem Join_Split (sep : Byte) (s : List Byte) : Join sep (Split sep s) = s := by
  induction s with
  | nil => rfl
  | cons c cs ih =>
    rw [Split]
    rcases hs : Split sep cs with _ | ⟨q, qs⟩
    · exact absurd hs (Split_ne_nil sep cs)
    · rw [hs] at ih
      by_cases hc : c = sep
      · rw [if_pos hc, Join, ih, hc]
        rfl
      · rw [if_neg hc]
        cases qs with
        | nil =>
          simp only [Join] at ih ⊢
          rw [ih]
        | cons r rs =>
          simp only [Join] at ih ⊢
          rw [List.cons_append, ih]

theorem Split_Join (sep : Byte) (fs : List (List Byte)) (hne : fs ≠ [])
    (h : ∀ f ∈ fs, sep ∉ f) : Split sep (Join sep fs) = fs := by
  induction fs with
  | nil => exact absurd rfl hne
  | cons f rest ih =>
    cases rest with
    | nil =>
      rw [Join]
      exact Split_of_not_mem sep f (h f (by simp))
    | cons g rest2 =>
      rw [Join, Split_append_sep sep f _ (h f (by simp)),
        ih (by simp) (fun x hx => h x (List.mem_cons_of_mem _ hx))]

theorem Split_eq_pair (sep : Byte) (s a b : List Byte) (h : Split sep s = [a, b]) :
    s = a ++ sep :: b ∧ sep ∉ a ∧ sep ∉ b := by
  refine ⟨?_, ?_, ?_⟩
  · have hj := Join_Split sep s
    rw [h] at hj
    exact hj.symm
  · exact Split_mem_no_sep sep s a (by rw [h]; simp)
  · exact Split_mem_no_sep sep s b (by rw [h]; simp)

theorem Split_pair_of_eq (sep : Byte) (a b : List Byte) (ha : sep ∉ a) (hb : sep ∉ b) :
    Split sep (a ++ sep :: b) = [a, b] := by
  rw [Split_append_sep sep a b ha, Split_of_not_mem sep b hb]

/-! ## The loop on accepted fields -/

/-- The state after one accepted field. -/
theorem parsePairs_cons_accepted (sh : signedHeader) (pair : List Byte)
    (h : ¬ rejectedPair pair) (rest : List (List Byte)) :
    parsePairs sh (pair :: rest) =
      parsePairs ⟨lastTimestamp sh.timestamp [pair],
        sh.signatures ++ (fieldSignature pair).toList⟩ rest := by
  unfold rejectedPair at h
  push_neg at h
  obtain ⟨hlen, ht⟩ := h
  have hne : SigningVersion ≠ timestampName := by decide
  rcases hs : Split equalsSign pair with _ | ⟨name, _ | ⟨value, _ | ⟨c, r⟩⟩⟩
  · rw [hs] at hlen; simp at hlen
  · rw [hs] at hlen; simp at hlen
  · by_cases hn : name = timestampName
    · subst hn
      cases hp : ParseInt value with
      | none => exact absurd hp (ht value hs)
      | some ts =>
        rw [parsePairs_cons_timestamp sh pair value rest ts hs hp]
        simp [lastTimestamp, fieldTimestamp, fieldSignature, hs, hp, hne.symm]
    · by_cases hv : name = SigningVersion
      · subst hv
        cases hp : hexDecode value with
        | none =>
          rw [parsePairs_cons_signature_invalid sh pair value rest hs hp]
          simp [lastTimestamp, fieldTimestamp, fieldSignature, hs, hp, hne]
        | some sig =>
          rw [parsePairs_cons_signature sh pair value sig rest hs hp]
          simp [lastTimestamp, fieldTimestamp, fieldSignature, hs, hp, hne]
      · rw [parsePairs_cons_unknown sh pair name value rest hs hn hv]
        simp [lastTimestamp, fieldTimestamp, fieldSignature, hs, hn, hv]
  · rw [hs] at hlen; simp at hlen

/-- On fields none of which is rejected the loop runs to its end, keeping the
timestamp of the last `t` field and collecting the decoded `v1` values in
order. -/
theorem parsePairs_of_accepted (pairs : List (List Byte)) :
    (∀ f ∈ pairs, ¬ rejectedPair f) → ∀ sh : signedHeader,
      parsePairs sh pairs =
        (⟨lastTimestamp sh.timestamp pairs,
          sh.signatures ++ pairs.filterMap fieldSignature⟩, none) := by
  induction pairs with
  | nil => intro _ sh; simp [parsePairs, lastTimestamp]
  | cons pair rest ih =>
    intro h sh
    rw [parsePairs_cons_accepted sh pair (h pair (by simp)) rest,
      ih (fun f hf => h f (List.mem_cons_of_mem _ hf))]
    cases hf : fieldSignature pair <;>
      simp [lastTimestamp, List.filterMap_cons, hf]

theorem parseSignatureHeader_of_ok (header : List Byte) (sh : signedHeader)
    (h : parseSignatureHeader header = (sh, none)) :
    header ≠ [] ∧ (∀ f ∈ Split comma header, ¬ rejectedPair f) ∧
      sh = ⟨lastTimestamp signedHeader.zero.timestamp (Split comma header),
        (Split comma header).filterMap fieldSignature⟩ ∧ sh.signatures ≠ [] := by
  have hne : header ≠ [] := by
    intro e
    rw [e] at h
    simp [parseSignatureHeader] at h
  have herr : (parseSignatureHeader header).2 ≠ some Err.ErrInvalidHeader := by
    rw [h]; simp
  simp only [parseSignatureHeader, if_neg hne] at h herr
  rw [Ne, parseFields_invalid_iff] at herr
  have hacc : ∀ f ∈ Split comma header, ¬ rejectedPair f := fun f hf hr => herr ⟨f, hf, hr⟩
  refine ⟨hne, hacc, ?_⟩
  unfold parseFields at h
  rw [parsePairs_of_accepted _ hacc signedHeader.zero] at h
  simp only [signedHeader.zero, List.nil_append] at h ⊢
  split_ifs at h with hl
  · simp at h
  · have hsh := (congrArg Prod.fst h).symm
    simp only at hsh
    refine ⟨hsh, ?_⟩
    rw [hsh]
    intro e
    have e2 : List.filterMap fieldSignature (Split comma header) = [] := e
    exact hl (by rw [e2]; rfl)

/-! ## Fields as text -/

theorem count_name_value (name value : List Byte) (hn : equalsSign ∉ name) :
    (name ++ equalsSign :: value).count equalsSign = 1 + value.count equalsSign := by
  rw [List.count_append, List.count_cons_self, List.count_eq_zero_of_not_mem hn]
  omega

theorem not_mem_value_of_count (name value : List Byte) (hn : equalsSign ∉ name)
    (h : (name ++ equalsSign :: value).count equalsSign = 1) : equalsSign ∉ value := by
  rw [count_name_value name value hn] at h
  exact List.count_eq_zero.mp (by omega)

theorem count_of_not_rejected (f : List Byte) (h : ¬ rejectedPair f) :
    f.count equalsSign = 1 := by
  unfold rejectedPair at h
  push_neg at h
  have := h.1
  rw [Split_length] at this
  omega

theorem not_rejected_of_wellFormed (f : List Byte) (hc : f.count equalsSign = 1)
    (ht : ∀ v, f = timestampName ++ equalsSign :: v → ParseInt v ≠ none) :
    ¬ rejectedPair f := by
  rintro (h | ⟨v, hs, hp⟩)
  · rw [Split_length] at h
    omega
  · exact ht v (Split_eq_pair equalsSign f _ v hs).1 hp

theorem exists_name_value (f : List Byte) (hc : f.count equalsSign = 1) :
    ∃ name value, f = name ++ equalsSign :: value ∧ equalsSign ∉ name ∧ equalsSign ∉ value ∧
      Split equalsSign f = [name, value] := by
  have hl := Split_length equalsSign f
  rw [hc] at hl
  rcases hs : Split equalsSign f with _ | ⟨name, _ | ⟨value, _ | ⟨c, r⟩⟩⟩
  · rw [hs] at hl; simp at hl
  · rw [hs] at hl; simp at hl
  · obtain ⟨h1, h2, h3⟩ := Split_eq_pair equalsSign f name value hs
    exact ⟨name, value, h1, h2, h3, rfl⟩
  · rw [hs] at hl; simp at hl

theorem fieldSignature_eq_some_iff (f sig : List Byte) :
    fieldSignature f = some sig ↔
      ∃ v, f = SigningVersion ++ equalsSign :: v ∧ equalsSign ∉ v ∧ hexDecode v = some sig := by
  have hv1 : equalsSign ∉ SigningVersion := by decide
  constructor
  · intro h
    unfold fieldSignature at h
    rcases hs : Split equalsSign f with _ | ⟨name, _ | ⟨value, _ | ⟨c, r⟩⟩⟩
    · rw [hs] at h; simp at h
    · rw [hs] at h; simp at h
    · rw [hs] at h
      simp only at h
      split_ifs at h with hn
      subst hn
      obtain ⟨h1, _, h3⟩ := Split_eq_pair equalsSign f _ value hs
      exact ⟨value, h1, h3, h⟩
    · rw [hs] at h; simp at h
  · rintro ⟨v, hf, hv, hd⟩
    unfold fieldSignature
    rw [hf, Split_pair_of_eq equalsSign _ v hv1 hv]
    simp [hd]

theorem fieldTimestamp_eq_some_iff (f : List Byte) (ts : Int) :
    fieldTimestamp f = some ts ↔
      ∃ v, f = timestampName ++ equalsSign :: v ∧ equalsSign ∉ v ∧ ParseInt v = some ts := by
  have ht : equalsSign ∉ timestampName := by decide
  constructor
  · intro h
    unfold fieldTimestamp at h
    rcases hs : Split equalsSign f with _ | ⟨name, _ | ⟨value, _ | ⟨c, r⟩⟩⟩
    · rw [hs] at h; simp at h
    · rw [hs] at h; simp at h
    · rw [hs] at h
      simp only at h
      split_ifs at h with hn
      subst hn
      obtain ⟨h1, _, h3⟩ := Split_eq_pair equalsSign f _ value hs
      exact ⟨value, h1, h3, h⟩
    · rw [hs] at h; simp at h
  · rintro ⟨v, hf, hv, hd⟩
    unfold fieldTimestamp
    rw [hf, Split_pair_of_eq equalsSign _ v ht hv]
    simp [hd]

theorem lastTimestamp_of_no_timestamp (pairs : List (List Byte)) :
    (∀ g ∈ pairs, ∀ v, g ≠ timestampName ++ equalsSign :: v) →
      ∀ init, lastTimestamp init pairs = init := by
  induction pairs with
  | nil => intro _ init; rfl
  | cons g rest ih =>
    intro h init
    have hg : fieldTimestamp g = none := by
      cases hft : fieldTimestamp g with
      | none => rfl
      | some ts =>
        obtain ⟨v, hv, _⟩ := (fieldTimestamp_eq_some_iff g ts).mp hft
        exact absurd hv (h g (by simp) v)
    have hr := ih (fun x hx => h x (List.mem_cons_of_mem _ hx)) init
    unfold lastTimestamp at hr ⊢
    rw [List.foldl_cons, hg]
    exact hr

theorem lastTimestamp_append (init : Time) (front back : List (List Byte)) :
    lastTimestamp init (front ++ back) = lastTimestamp (lastTimestamp init front) back := by
  unfold lastTimestamp
  rw [List.foldl_append]

theorem ParseInt_range (s : List Byte) (i : Int) (h : ParseInt s = some i) :
    minInt64 ≤ i ∧ i ≤ maxInt64 := by
  unfold minInt64 maxInt64
  cases s with
  | nil => simp [ParseInt] at h
  | cons c cs =>
    simp only [ParseInt] at h
    split at h
    · simp at h
    · split_ifs at h with h1 h2 h3
      · have hi : i = -(_ : Int) := (Option.some.inj h).symm
        have h4 : ¬ (9223372036854775808 < _) := fun hc => h2 ⟨h3, hc⟩
        omega
      · have hi : i = (_ : Int) := (Option.some.inj h).symm
        have h4 : ¬ (9223372036854775808 ≤ _) := fun hc => h1 ⟨h3, hc⟩
        omega

/-! ## Claims about the parsed header -/

/-- C11: for a non-empty header whose fields all contain exactly one `=` and
whose `t` values all parse, `parseSignatureHeader` returns
`ErrNoValidSignature` exactly when no `v1` field has a value that hex-decodes;
and every successful parse, of any header, has a non-empty signatures list. -/
theorem C11_no_valid_signature_iff (header : List Byte) (hne : header ≠ [])
    (hwf : ∀ f ∈ Split comma header, f.count equalsSign = 1)
    (ht : ∀ f ∈ Split comma header, ∀ v,
      f = timestampName ++ equalsSign :: v → ParseInt v ≠ none) :
    ((parseSignatureHeader header).2 = some Err.ErrNoValidSignature ↔
      ¬ ∃ f ∈ Split comma header, ∃ v sig,
        f = SigningVersion ++ equalsSign :: v ∧ hexDecode v = some sig) ∧
    (∀ (other : List Byte) (sh : signedHeader),
      parseSignatureHeader other = (sh, none) → sh.signatures ≠ []) := by
  have hv1 : equalsSign ∉ SigningVersion := by decide
  have hacc : ∀ f ∈ Split comma header, ¬ rejectedPair f :=
    fun f hf => not_rejected_of_wellFormed f (hwf f hf) (ht f hf)
  refine ⟨?_, fun other sh h => (parseSignatureHeader_of_ok other sh h).2.2.2⟩
  simp only [parseSignatureHeader, if_neg hne, parseFields]
  rw [parsePairs_of_accepted _ hacc signedHeader.zero]
  simp only [signedHeader.zero, List.nil_append]
  constructor
  · intro h
    split_ifs at h with hl
    · rintro ⟨f, hf, v, sig, hfv, hd⟩
      have hnv : equalsSign ∉ v :=
        not_mem_value_of_count SigningVersion v hv1 (by rw [← hfv]; exact hwf f hf)
      have hsome : fieldSignature f = some sig :=
        (fieldSignature_eq_some_iff f sig).mpr ⟨v, hfv, hnv, hd⟩
      have hnil := List.length_eq_zero.mp hl
      rw [List.filterMap_eq_nil_iff] at hnil
      rw [hnil f hf] at hsome
      simp at hsome
  · intro h
    have hnil : List.filterMap fieldSignature (Split comma header) = [] := by
      rw [List.filterMap_eq_nil_iff]
      intro f hf
      cases hfs : fieldSignature f with
      | none => rfl
      | some sig =>
        obtain ⟨v, hfv, _, hd⟩ := (fieldSignature_eq_some_iff f sig).mp hfs
        exact absurd ⟨f, hf, v, sig, hfv, hd⟩ h
    rw [hnil]
    rfl

/-- C11 at the header `t=1700000000,c=not-valid`, which has no `v1` field, and
at `t=1,v1=zz`, whose only `v1` value is not hexadecimal. -/
theorem C11_no_valid_signature_iff_witness :
    (parseSignatureHeader (bytes "t=1700000000,c=not-valid")).2 =
      some Err.ErrNoValidSignature ∧
    (parseSignatureHeader (bytes "t=1,v1=zz")).2 = some Err.ErrNoValidSignature :=
  ⟨by decide,
   (C11_no_valid_signature_iff (bytes "t=1,v1=zz") (by decide) (by decide)
      (by
        intro f hf v hfv
        have hf2 : f = bytes "t=1" ∨ f = bytes "v1=zz" := by
          have : Split comma (bytes "t=1,v1=zz") = [bytes "t=1", bytes "v1=zz"] := by decide
          rw [this] at hf
          simpa using hf
        rcases hf2 with h | h
        · rw [h] at hfv
          have hv : v = bytes "1" := by
            have h2 : bytes "t=1" = timestampName ++ equalsSign :: bytes "1" := by decide
            rw [h2] at hfv
            exact (List.cons_injective (List.append_cancel_left hfv)).symm
          rw [hv]
          decide
        · rw [h] at hfv
          have h2 := congrArg List.head? hfv
          have h3 : (bytes "v1=zz").head? = some 118 := by decide
          have h4 : (timestampName ++ equalsSign :: v).head? = some 116 := rfl
          rw [h3, h4] at h2
          exact absurd h2 (by decide))).1.mpr
     (by
        rintro ⟨f, hf, v, sig, hfv, hd⟩
        have hsplit : Split comma (bytes "t=1,v1=zz") = [bytes "t=1", bytes "v1=zz"] := by
          decide
        rw [hsplit] at hf
        have hf2 : f = bytes "t=1" ∨ f = bytes "v1=zz" := by simpa using hf
        rcases hf2 with h | h
        · rw [h] at hfv
          have h2 := congrArg List.head? hfv
          have h3 : (bytes "t=1").head? = some 116 := by decide
          have h4 : (SigningVersion ++ equalsSign :: v).head? = some 118 := rfl
          rw [h3, h4] at h2
          exact absurd h2 (by decide)
        · rw [h] at hfv
          have h2 : bytes "v1=zz" = SigningVersion ++ equalsSign :: bytes "zz" := by decide
          rw [h2] at hfv
          have hv : v = bytes "zz" :=
            (List.cons_injective (List.append_cancel_left hfv)).symm
          have hz : hexDecode (bytes "zz") = none := by decide
          rw [hv, hz] at hd
          exact absurd hd (by simp))⟩

/-- C12: for a header that parses successfully, the signatures list is, in
header order, the hex decoding of the value of each `v1` field whose value
decodes; every field is `name=value` with a single `=`, and contributes the
decoding of its value when its name is `v1` and the value decodes, and nothing
otherwise. -/
theorem C12_signatures_in_order (header : List Byte) (sh : signedHeader)
    (h : parseSignatureHeader header = (sh, none)) :
    sh.signatures = (Split comma header).filterMap fieldSignature ∧
    (∀ f ∈ Split comma header, ∃ name value,
      f = name ++ equalsSign :: value ∧ equalsSign ∉ name ∧ equalsSign ∉ value ∧
      fieldSignature f = if name = SigningVersion then hexDecode value else none) := by
  obtain ⟨_, hacc, hsh, _⟩ := parseSignatureHeader_of_ok header sh h
  refine ⟨by rw [hsh], ?_⟩
  intro f hf
  obtain ⟨name, value, h1, h2, h3, h4⟩ :=
    exists_name_value f (count_of_not_rejected f (hacc f hf))
  refine ⟨name, value, h1, h2, h3, ?_⟩
  unfold fieldSignature
  rw [h4]

/-- C12 at a header with a valid `v1` value, one that is not hexadecimal, one
of odd length, an unknown field and another valid `v1` value. -/
theorem C12_signatures_in_order_witness :
    (⟨timeUnix 1, [[171], [1, 2]]⟩ : signedHeader).signatures =
      (Split comma (bytes "v1=ab,t=1,v1=xyz,v1=abc,v0=cd,v1=0102")).filterMap fieldSignature ∧
    (Split comma (bytes "v1=ab,t=1,v1=xyz,v1=abc,v0=cd,v1=0102")).map fieldSignature =
      [some [171], none, none, none, none, some [1, 2]] :=
  ⟨(C12_signatures_in_order (bytes "v1=ab,t=1,v1=xyz,v1=abc,v0=cd,v1=0102")
      ⟨timeUnix 1, [[171], [1, 2]]⟩ (by decide)).1, by decide⟩

/-- C13: for a header that parses successfully, the timestamp is the Unix time
given by the value of the last `t` field, whatever `t` fields precede it. -/
theorem C13_last_timestamp_wins (header value : List Byte) (sh : signedHeader)
    (front back : List (List Byte))
    (h : parseSignatureHeader header = (sh, none))
    (hsplit : Split comma header = front ++ (timestampName ++ equalsSign :: value) :: back)
    (hlast : ∀ g ∈ back, ∀ v, g ≠ timestampName ++ equalsSign :: v) :
    ∃ ts, ParseInt value = some ts ∧ sh.timestamp = timeUnix ts ∧ sh.timestamp.Unix = ts := by
  have htn : equalsSign ∉ timestampName := by decide
  obtain ⟨_, hacc, hsh, _⟩ := parseSignatureHeader_of_ok header sh h
  have hf : ¬ rejectedPair (timestampName ++ equalsSign :: value) :=
    hacc _ (by rw [hsplit]; simp)
  have hv : equalsSign ∉ value :=
    not_mem_value_of_count timestampName value htn (count_of_not_rejected _ hf)
  have hs := Split_pair_of_eq equalsSign timestampName value htn hv
  cases hp : ParseInt value with
  | none => exact absurd (Or.inr ⟨value, hs, hp⟩) hf
  | some ts =>
    have hft : fieldTimestamp (timestampName ++ equalsSign :: value) = some ts :=
      (fieldTimestamp_eq_some_iff _ ts).mpr ⟨value, rfl, hv, hp⟩
    have hts : sh.timestamp = timeUnix ts := by
      rw [hsh, hsplit]
      simp only []
      rw [lastTimestamp_append]
      have hc : (timestampName ++ equalsSign :: value) :: back =
          [timestampName ++ equalsSign :: value] ++ back := rfl
      rw [hc, lastTimestamp_append, lastTimestamp_of_no_timestamp back hlast]
      simp [lastTimestamp, hft]
    refine ⟨ts, rfl, hts, ?_⟩
    rw [hts]
    exact Unix_timeUnix ts (ParseInt_range value ts hp).1 (ParseInt_range value ts hp).2

/-- C13 at a header with three `t` fields, the last of them in the middle. -/
theorem C13_last_timestamp_wins_witness :
    parseSignatureHeader (bytes "t=5,t=1700000000,v1=ab,t=-7,v0=x") =
      (⟨timeUnix (-7), [[171]]⟩, none) ∧
    ∃ ts, ParseInt (bytes "-7") = some ts ∧
      (⟨timeUnix (-7), [[171]]⟩ : signedHeader).timestamp = timeUnix ts ∧
      (⟨timeUnix (-7), [[171]]⟩ : signedHeader).timestamp.Unix = ts :=
  ⟨by decide,
   C13_last_timestamp_wins (bytes "t=5,t=1700000000,v1=ab,t=-7,v0=x") (bytes "-7")
    ⟨timeUnix (-7), [[171]]⟩ [bytes "t=5", bytes "t=1700000000", bytes "v1=ab"] [bytes "v0=x"]
    (by decide) (by decide)
    (by
      intro g hg v hgv
      have hg2 : g = bytes "v0=x" := by simpa using hg
      have h2 := congrArg List.head? hgv
      have h3 : g.head? = some 118 := by rw [hg2]; decide
      have h4 : (timestampName ++ equalsSign :: v).head? = some 116 := rfl
      rw [h3, h4] at h2
      exact absurd h2 (by decide))⟩

/-! ## Unknown fields -/

/-- C14: inserting a field `name=value`, with a name other than `t` and `v1`
and no `,` or `=` inside name or value, at any position among the fields of a
non-empty header leaves the result of `parseSignatureHeader` unchanged, and
with it the result of `ConstructNotification`. -/
theorem C14_unknown_field_ignored (header name value : List Byte)
    (front back : List (List Byte)) (hne : header ≠ [])
    (hsplit : Split comma header = front ++ back)
    (hn1 : name ≠ timestampName) (hn2 : name ≠ SigningVersion)
    (hc1 : comma ∉ name) (hc2 : comma ∉ value)
    (he1 : equalsSign ∉ name) (he2 : equalsSign ∉ value) :
    parseSignatureHeader (Join comma (front ++ (name ++ equalsSign :: value) :: back)) =
      parseSignatureHeader header ∧
    (∀ (L : StdLib) (now : Time) (payload secret : List Byte),
      ConstructNotification L now payload
          (Join comma (front ++ (name ++ equalsSign :: value) :: back)) secret =
        ConstructNotification L now payload header secret) := by
  have hnc : ∀ f ∈ front ++ (name ++ equalsSign :: value) :: back, comma ∉ f := by
    intro f hf
    rcases List.mem_append.mp hf with h | h
    · exact Split_mem_no_sep comma header f (by rw [hsplit]; exact List.mem_append_left _ h)
    · rcases List.mem_cons.mp h with h | h
      · rw [h]
        intro hm
        rcases List.mem_append.mp hm with h1 | h1
        · exact hc1 h1
        · rcases List.mem_cons.mp h1 with h2 | h2
          · exact absurd h2 (by decide)
          · exact hc2 h2
      · exact Split_mem_no_sep comma header f (by rw [hsplit]; exact List.mem_append_right _ h)
  have hs := Split_Join comma (front ++ (name ++ equalsSign :: value) :: back) (by simp) hnc
  have hne2 : Join comma (front ++ (name ++ equalsSign :: value) :: back) ≠ [] := by
    intro e
    rw [e] at hs
    have hm : name ++ equalsSign :: value ∈ Split comma [] := by rw [hs]; simp
    have := Split_nil_mem comma _ hm
    simp at this
  have hskip : ∀ sh rest,
      parsePairs sh ((name ++ equalsSign :: value) :: rest) = parsePairs sh rest :=
    fun sh rest => parsePairs_cons_unknown sh _ name value rest
      (Split_pair_of_eq equalsSign name value he1 he2) hn1 hn2
  have hp : parseSignatureHeader (Join comma (front ++ (name ++ equalsSign :: value) :: back)) =
      parseSignatureHeader header := by
    simp only [parseSignatureHeader, if_neg hne, if_neg hne2, parseFields]
    rw [hs, hsplit, parsePairs_drop_skipped _ back hskip front signedHeader.zero]
  refine ⟨hp, ?_⟩
  intro L now payload secret
  unfold ConstructNotification
  rw [hp]

/-- C14 at a correctly signed header to which `v0=garbage` is added in the
middle: the header still verifies. -/
theorem C14_unknown_field_ignored_witness :
    Join comma ([bytes "t=1700000000"] ++ (bytes "v0" ++ equalsSign :: bytes "garbage") ::
      [SigningVersion ++ equalsSign :: hexEncode (ComputeSignature sampleLib (bytes "k")
        (unixInstant 1700000000 0) samplePayload)]) =
      bytes "t=1700000000,v0=garbage,v1=" ++ hexEncode (ComputeSignature sampleLib (bytes "k")
        (unixInstant 1700000000 0) samplePayload) ∧
    ConstructNotification sampleLib (unixInstant 1700000010 0) samplePayload
      (Join comma ([bytes "t=1700000000"] ++ (bytes "v0" ++ equalsSign :: bytes "garbage") ::
        [SigningVersion ++ equalsSign :: hexEncode (ComputeSignature sampleLib (bytes "k")
          (unixInstant 1700000000 0) samplePayload)]))
      (bytes "k") = (⟨bytes "trigger-name", bytes "entity-id", none⟩, none) :=
  ⟨by decide,
   ((C14_unknown_field_ignored
      (MakeHTTPHeader (unixInstant 1700000000 0)
        (ComputeSignature sampleLib (bytes "k") (unixInstant 1700000000 0) samplePayload))
      (bytes "v0") (bytes "garbage") [bytes "t=1700000000"]
      [SigningVersion ++ equalsSign :: hexEncode (ComputeSignature sampleLib (bytes "k")
        (unixInstant 1700000000 0) samplePayload)]
      (by decide) (by decide) (by decide) (by decide) (by decide) (by decide) (by decide)
      (by decide)).2 sampleLib (unixInstant 1700000010 0) samplePayload (bytes "k")).trans
    (by decide)⟩

/-! ## The signed message -/

theorem ComputeSignature_eq (L : StdLib) (secret : List Byte) (t : Time) (payload : List Byte) :
    ComputeSignature L secret t payload =
      L.hmacSha256 secret (formatInt t.Unix ++ dot :: payload) := by
  simp [ComputeSignature, hmacNew, Mac.Write, Mac.Sum]

theorem formatInt_mem_range (i : Int) (c : Byte) (h : c ∈ formatInt i) :
    (48 ≤ c.val ∧ c.val ≤ 57) ∨ c = minusSign := by
  unfold formatInt formatUint at h
  split_ifs at h
  · rcases List.mem_cons.mp h with h | h
    · right; exact h
    · rcases formatUintAux_mem _ _ _ c h with h | h
      · left; exact h
      · simp at h
  · rcases formatUintAux_mem _ _ _ c h with h | h
    · left; exact h
    · simp at h

theorem dot_not_mem_formatInt (i : Int) : dot ∉ formatInt i := by
  intro h
  rcases formatInt_mem_range i dot h with ⟨h1, _⟩ | h1
  · exact absurd h1 (by decide)
  · exact absurd h1 (by decide)

theorem formatUint_injective (n m : Nat) (h : formatUint n = formatUint m) : n = m := by
  have hn := parseDigits_formatUintAux (n + 1) n [] (Nat.lt_succ_self n)
  have hm := parseDigits_formatUintAux (m + 1) m [] (Nat.lt_succ_self m)
  unfold formatUint at h
  rw [h, hm] at hn
  simpa [parseDigits] using hn.symm

theorem formatUint_head_ne_minus (n : Nat) (rest : List Byte) :
    formatUint n ≠ minusSign :: rest := by
  obtain ⟨d, r, hd⟩ := formatUintAux_head (n + 1) n [] (Nat.lt_succ_self n)
  unfold formatUint
  rw [hd]
  intro e
  have hv := congrArg Fin.val (List.cons.inj e).1
  rw [digitByte_val] at hv
  have hm : d % 10 < 10 := Nat.mod_lt _ (by decide)
  have h45 : minusSign.val = 45 := rfl
  omega

theorem formatInt_injective (i j : Int) (h : formatInt i = formatInt j) : i = j := by
  unfold formatInt at h
  by_cases hi : i < 0 <;> by_cases hj : j < 0
  · rw [if_pos hi, if_pos hj] at h
    have := formatUint_injective _ _ (List.cons.inj h).2
    omega
  · rw [if_pos hi, if_neg hj] at h
    exact absurd h.symm (formatUint_head_ne_minus _ _)
  · rw [if_neg hi, if_pos hj] at h
    exact absurd h (formatUint_head_ne_minus _ _)
  · rw [if_neg hi, if_neg hj] at h
    have := formatUint_injective _ _ h
    omega

theorem append_sep_injective (sep : Byte) (a : List Byte) :
    ∀ (b p q : List Byte), sep ∉ a → sep ∉ b → a ++ sep :: p = b ++ sep :: q →
      a = b ∧ p = q := by
  induction a with
  | nil =>
    intro b p q _ hb h
    cases b with
    | nil => exact ⟨rfl, (List.cons.inj h).2⟩
    | cons c cs =>
      have := (List.cons.inj h).1
      exact absurd (by rw [this]; simp) hb
  | cons x xs ih =>
    intro b p q ha hb h
    cases b with
    | nil =>
      have := (List.cons.inj h).1
      exact absurd (by rw [← this]; simp) ha
    | cons c cs =>
      obtain ⟨h1, h2⟩ := List.cons.inj h
      obtain ⟨h3, h4⟩ := ih cs p q (fun e => ha (List.mem_cons_of_mem _ e))
        (fun e => hb (List.mem_cons_of_mem _ e)) h2
      exact ⟨by rw [h1, h3], h4⟩

/-- C15: the signature is HMAC-SHA256 keyed by the secret over the decimal
Unix seconds of `t`, a `.` and the payload; it depends on `t` through
`t.Unix()` only. -/
theorem C15_signature_is_hmac (L : StdLib) (secret : List Byte) (t : Time)
    (payload : List Byte) :
    ComputeSignature L secret t payload =
      L.hmacSha256 secret (formatInt t.Unix ++ dot :: payload) ∧
    (∀ t2 : Time, t2.Unix = t.Unix →
      ComputeSignature L secret t2 payload = ComputeSignature L secret t payload) := by
  refine ⟨ComputeSignature_eq L secret t payload, ?_⟩
  intro t2 h
  rw [ComputeSignature_eq, ComputeSignature_eq, h]

/-- C15 at the secret `im a secret`, second 1700000000 and payload
`im a payload`. -/
theorem C15_signature_is_hmac_witness :
    ComputeSignature sampleLib (bytes "im a secret") (unixInstant 1700000000 250)
        (bytes "im a payload") =
      sampleLib.hmacSha256 (bytes "im a secret") (bytes "1700000000.im a payload") ∧
    ComputeSignature sampleLib (bytes "im a secret") (unixInstant 1700000000 0)
        (bytes "im a payload") =
      ComputeSignature sampleLib (bytes "im a secret") (unixInstant 1700000000 250)
        (bytes "im a payload") :=
  ⟨(C15_signature_is_hmac sampleLib (bytes "im a secret") (unixInstant 1700000000 250)
      (bytes "im a payload")).1.trans (by decide),
   (C15_signature_is_hmac sampleLib (bytes "im a secret") (unixInstant 1700000000 250)
      (bytes "im a payload")).2 (unixInstant 1700000000 0) (by decide)⟩

/-- C17: the bytes written to the MAC determine the Unix seconds and the
payload: equal messages `decimal(s) ++ "." ++ p` have equal seconds and equal
payloads. -/
theorem C17_message_injective (s1 s2 : Int) (p1 p2 : List Byte)
    (h : formatInt s1 ++ dot :: p1 = formatInt s2 ++ dot :: p2) :
    s1 = s2 ∧ p1 = p2 := by
  obtain ⟨h1, h2⟩ := append_sep_injective dot (formatInt s1) (formatInt s2) p1 p2
    (dot_not_mem_formatInt s1) (dot_not_mem_formatInt s2) h
  exact ⟨formatInt_injective s1 s2 h1, h2⟩

/-- C17 at the message `12.3.4`, which is second 12 with payload `3.4` and
nothing else, such as second 1 with payload `2.3.4`. -/
theorem C17_message_injective_witness :
    formatInt 12 ++ dot :: bytes "3.4" = bytes "12.3.4" ∧
    formatInt 1 ++ dot :: bytes "2.3.4" ≠ bytes "12.3.4" ∧
    ((12 : Int) = 12 ∧ bytes "3.4" = bytes "3.4") :=
  ⟨by decide, by decide, C17_message_injective 12 12 (bytes "3.4") (bytes "3.4") rfl⟩

/-- C16 as stated fails: two timestamps one nanosecond apart within the same
second are different, have the same Unix seconds, and get the same
signature. -/
theorem C16_counterexample :
    unixInstant 1700000000 0 ≠ unixInstant 1700000000 1 ∧
    (unixInstant 1700000000 0).Unix = (unixInstant 1700000000 1).Unix ∧
    ComputeSignature sampleLib (bytes "im a secret") (unixInstant 1700000000 0)
        (bytes "im a payload") =
      ComputeSignature sampleLib (bytes "im a secret") (unixInstant 1700000000 1)
        (bytes "im a payload") := by
  decide

/-- C16, amended: timestamps with the same Unix second get the same
signature; for timestamps with different Unix seconds the messages given to
HMAC differ, and the signatures differ whenever HMAC under this key does not
collide on these two messages. -/
theorem C16_signature_by_second (L : StdLib) (secret payload : List Byte) (t1 t2 : Time) :
    (t1.Unix = t2.Unix →
      ComputeSignature L secret t1 payload = ComputeSignature L secret t2 payload) ∧
    (t1.Unix ≠ t2.Unix →
      formatInt t1.Unix ++ dot :: payload ≠ formatInt t2.Unix ++ dot :: payload) ∧
    (t1.Unix ≠ t2.Unix →
      (L.hmacSha256 secret (formatInt t1.Unix ++ dot :: payload) =
          L.hmacSha256 secret (formatInt t2.Unix ++ dot :: payload) →
        formatInt t1.Unix ++ dot :: payload = formatInt t2.Unix ++ dot :: payload) →
      ComputeSignature L secret t1 payload ≠ ComputeSignature L secret t2 payload) := by
  have hmsg : t1.Unix ≠ t2.Unix →
      formatInt t1.Unix ++ dot :: payload ≠ formatInt t2.Unix ++ dot :: payload := by
    intro hne e
    obtain ⟨h1, _⟩ := append_sep_injective dot _ _ payload payload
      (dot_not_mem_formatInt _) (dot_not_mem_formatInt _) e
    exact hne (formatInt_injective _ _ h1)
  refine ⟨?_, hmsg, ?_⟩
  · intro h
    rw [ComputeSignature_eq, ComputeSignature_eq, h]
  · intro hne hnc e
    rw [ComputeSignature_eq, ComputeSignature_eq] at e
    exact hmsg hne (hnc e)

/-- C16, amended, at two timestamps five hours apart. -/
theorem C16_signature_by_second_witness :
    ComputeSignature sampleLib (bytes "im a secret") (unixInstant 1700000000 0)
        (bytes "im a payload") ≠
      ComputeSignature sampleLib (bytes "im a secret") (unixInstant 1700018000 0)
        (bytes "im a payload") :=
  (C16_signature_by_second sampleLib (bytes "im a secret") (bytes "im a payload")
    (unixInstant 1700000000 0) (unixInstant 1700018000 0)).2.2 (by decide) (by decide)

/-! ## The shape of the header -/

theorem hexEncode_length (sig : List Byte) : (hexEncode sig).length = 2 * sig.length := by
  induction sig with
  | nil => rfl
  | cons b bs ih =>
    simp only [hexEncode, List.length_cons, ih]
    omega

theorem hexEncode_mem_range (sig : List Byte) (c : Byte) (h : c ∈ hexEncode sig) :
    (48 ≤ c.val ∧ c.val ≤ 57) ∨ (97 ≤ c.val ∧ c.val ≤ 102) := by
  have key : ∀ n, (48 ≤ (hexDigit n).val ∧ (hexDigit n).val ≤ 57) ∨
      (97 ≤ (hexDigit n).val ∧ (hexDigit n).val ≤ 102) := by
    intro n
    have hn : n % 16 < 16 := Nat.mod_lt _ (by decide)
    rw [hexDigit_val]
    split_ifs <;> omega
  induction sig with
  | nil => simp [hexEncode] at h
  | cons b bs ih =>
    simp only [hexEncode, List.mem_cons] at h
    rcases h with h | h | h
    · rw [h]; exact key _
    · rw [h]; exact key _
    · exact ih h

/-- C18: the header made from `t` and `sig` is `t=`, the decimal Unix seconds
of `t`, `,v1=` and the lowercase hexadecimal of `sig`; split at `,` it has
exactly two fields, named `t` and `v1`, and the signature value consists of
`2 * len(sig)` characters from `0`..`9` and `a`..`f`. -/
theorem C18_header_format (t : Time) (sig : List Byte) :
    MakeHTTPHeader t sig =
      bytes "t=" ++ formatInt t.Unix ++ bytes ",v1=" ++ hexEncode sig ∧
    Split comma (MakeHTTPHeader t sig) =
      [bytes "t=" ++ formatInt t.Unix, bytes "v1=" ++ hexEncode sig] ∧
    Split equalsSign (bytes "t=" ++ formatInt t.Unix) = [bytes "t", formatInt t.Unix] ∧
    Split equalsSign (bytes "v1=" ++ hexEncode sig) = [bytes "v1", hexEncode sig] ∧
    (∀ c ∈ hexEncode sig, (48 ≤ c.val ∧ c.val ≤ 57) ∨ (97 ≤ c.val ∧ c.val ≤ 102)) ∧
    (hexEncode sig).length = 2 * sig.length := by
  have b1 : bytes "t=" = timestampName ++ [equalsSign] := by decide
  have b2 : bytes ",v1=" = comma :: (SigningVersion ++ [equalsSign]) := by decide
  have b3 : bytes "v1=" = SigningVersion ++ [equalsSign] := by decide
  have b4 : bytes "t" = timestampName := by decide
  have b5 : bytes "v1" = SigningVersion := by decide
  refine ⟨?_, ?_, ?_, ?_, hexEncode_mem_range sig, hexEncode_length sig⟩
  · rw [b1, b2]
    simp [MakeHTTPHeader]
  · rw [Split_MakeHTTPHeader, b1, b3]
    simp
  · rw [b1, b4, List.append_assoc, List.singleton_append]
    exact Split_pair_of_eq equalsSign _ _ (by decide)
      (fun h => (formatInt_mem _ _ h).2 rfl)
  · rw [b3, b5, List.append_assoc, List.singleton_append]
    exact Split_pair_of_eq equalsSign _ _ (by decide)
      (fun h => (hexEncode_mem _ _ h).2 rfl)

/-! ## Headers without a timestamp -/

theorem nanosBetween_zero_gt (now : Time) (h : 300 < now.sec) :
    nanosBetween now ⟨0, 0⟩ > 300 * 1000000000 := by
  unfold nanosBetween
  simp only []
  omega

theorem parseSignatureHeader_timestamp_of_no_timestamp (header : List Byte) (sh : signedHeader)
    (hnot : ∀ f ∈ Split comma header, ∀ v, f ≠ timestampName ++ equalsSign :: v)
    (h : parseSignatureHeader header = (sh, none)) : sh.timestamp = ⟨0, 0⟩ := by
  obtain ⟨_, _, hsh, _⟩ := parseSignatureHeader_of_ok header sh h
  rw [hsh]
  exact lastTimestamp_of_no_timestamp _ hnot _

/-- C19 as stated fails: the header `v1=ab,x` has a valid `v1` signature and no
field named `t`, and `parseSignatureHeader` does not succeed on it; it returns
`ErrInvalidHeader` for the field `x`. -/
theorem C19_counterexample :
    parseSignatureHeader (bytes "v1=ab,x") = (⟨⟨0, 0⟩, [[171]]⟩, some Err.ErrInvalidHeader) ∧
    fieldSignature (bytes "v1=ab") = some [171] ∧
    Split comma (bytes "v1=ab,x") = [bytes "v1=ab", bytes "x"] := by
  decide

/-- C19, amended: for a header without a field `t=...`, (1) if every field has
exactly one `=` and some `v1` field has a value that hex-decodes, then
`parseSignatureHeader` succeeds with the zero-value timestamp and a non-empty
signatures list, and `ConstructNotification` returns `ErrSignatureTooOld` for
every payload and secret at every clock reading more than 300 seconds after
the zero time; (2) whatever its other fields are, `ConstructNotification`
returns an error at every such clock reading. -/
theorem C19_missing_timestamp (header : List Byte)
    (hnot : ∀ f ∈ Split comma header, ∀ v, f ≠ timestampName ++ equalsSign :: v) :
    ((∀ f ∈ Split comma header, f.count equalsSign = 1) →
      (∃ f ∈ Split comma header, ∃ v sig,
        f = SigningVersion ++ equalsSign :: v ∧ hexDecode v = some sig) →
      (∃ sigs, sigs ≠ [] ∧ parseSignatureHeader header = (⟨⟨0, 0⟩, sigs⟩, none)) ∧
      (∀ (L : StdLib) (now : Time) (payload secret : List Byte), 300 < now.sec →
        ConstructNotification L now payload header secret =
          (Notification.zero, some Err.ErrSignatureTooOld))) ∧
    (∀ (L : StdLib) (now : Time) (payload secret : List Byte), 300 < now.sec →
      (ConstructNotification L now payload header secret).2 ≠ none) := by
  constructor
  · intro hwf hsig
    obtain ⟨f, hf, v, sig, hfv, hd⟩ := hsig
    have hne : header ≠ [] := header_ne_nil_of_field header f hf (by rw [hfv]; simp [SigningVersion])
    have hacc : ∀ g ∈ Split comma header, ¬ rejectedPair g :=
      fun g hg => not_rejected_of_wellFormed g (hwf g hg)
        (fun w hw => absurd hw (hnot g hg w))
    have hnv : equalsSign ∉ v :=
      not_mem_value_of_count SigningVersion v (by decide) (by rw [← hfv]; exact hwf f hf)
    have hsome : fieldSignature f = some sig :=
      (fieldSignature_eq_some_iff f sig).mpr ⟨v, hfv, hnv, hd⟩
    have hnil : (Split comma header).filterMap fieldSignature ≠ [] := by
      intro e
      rw [List.filterMap_eq_nil_iff] at e
      rw [e f hf] at hsome
      simp at hsome
    have hp : parseSignatureHeader header =
        (⟨⟨0, 0⟩, (Split comma header).filterMap fieldSignature⟩, none) := by
      simp only [parseSignatureHeader, if_neg hne, parseFields]
      rw [parsePairs_of_accepted _ hacc signedHeader.zero]
      simp only [signedHeader.zero, List.nil_append]
      rw [lastTimestamp_of_no_timestamp _ hnot, if_neg (fun e => hnil (List.length_eq_zero.mp e))]
    refine ⟨⟨_, hnil, hp⟩, ?_⟩
    intro L now payload secret hnow
    rw [ConstructNotification_of_parsed L now payload header secret _ hp,
      if_pos (nanosBetween_zero_gt now hnow)]
  · intro L now payload secret hnow
    rcases hp : parseSignatureHeader header with ⟨sh, _ | e⟩
    · have hz := parseSignatureHeader_timestamp_of_no_timestamp header sh hnot hp
      rw [ConstructNotification_of_parsed L now payload header secret sh hp, hz,
        if_pos (nanosBetween_zero_gt now hnow)]
      simp
    · rw [ConstructNotification_of_parse_error L now payload header secret sh e hp]
      simp

/-- C19, amended, at the header holding only the right signature for a payload
signed at second 1700000000, verified ten seconds later. -/
theorem C19_missing_timestamp_witness :
    ConstructNotification sampleLib (unixInstant 1700000010 0) samplePayload
      (SigningVersion ++ equalsSign :: hexEncode (ComputeSignature sampleLib (bytes "k")
        (unixInstant 1700000000 0) samplePayload))
      (bytes "k") = (Notification.zero, some Err.ErrSignatureTooOld) := by
  have hs : Split comma (SigningVersion ++ equalsSign :: hexEncode (ComputeSignature sampleLib
      (bytes "k") (unixInstant 1700000000 0) samplePayload)) =
      [SigningVersion ++ equalsSign :: hexEncode (ComputeSignature sampleLib (bytes "k")
        (unixInstant 1700000000 0) samplePayload)] := by decide
  have hnot : ∀ f ∈ Split comma (SigningVersion ++ equalsSign :: hexEncode
      (ComputeSignature sampleLib (bytes "k") (unixInstant 1700000000 0) samplePayload)),
      ∀ v, f ≠ timestampName ++ equalsSign :: v := by
    intro f hf v hfv
    rw [hs] at hf
    have hf2 := List.mem_singleton.mp hf
    have h2 := congrArg List.head? hfv
    have h3 : f.head? = some 118 := by rw [hf2]; rfl
    have h4 : (timestampName ++ equalsSign :: v).head? = some 116 := rfl
    rw [h3, h4] at h2
    exact absurd h2 (by decide)
  exact ((C19_missing_timestamp _ hnot).1
    (by rw [hs]; decide)
    ⟨_, by rw [hs]; exact List.mem_singleton.mpr rfl, _, _, rfl, hexDecode_hexEncode _⟩).2
    sampleLib (unixInstant 1700000010 0) samplePayload (bytes "k") (by decide)

end EventDripper
